import Mathlib

/-!
Verification development for the dependency-aware declaration emitter in
`lib/PrintAsClang/ModuleContentsWriter.cpp`.

Declarations from the compiler's symbol table are shallowly embedded as
natural-number identifiers.  All queries the emitter makes about a
declaration (its kind, owning module, superclass, conformances, members,
interface type, printer inclusion policy, ...) are collected in an `Env`
structure of total functions, mirroring the external collaborators of the
C++ code.  The mutable state of one `ModuleWriter` instance (the
`seenTypes` ledger, the `declsToWrite` work stack, the import set, the
delayed-member set and the output stream) is embedded as `MWState`, and
each member function of `ModuleWriter` is translated to a Lean function
from state to state.
-/

/-- Output dialect, mirroring `OutputLanguageMode` (ObjC vs C++ mode;
the plain-C mode is not referenced by `ModuleContentsWriter.cpp`). -/
inductive OutputLanguageMode
  | ObjC
  | Cxx
deriving DecidableEq

/-- The kind of a declaration, as discriminated by `isa<...>` /
`dyn_cast<...>` tests in the C++ source. -/
inductive DeclKind
  | classKind
  | protocolKind
  | enumKind
  | structKind
  | funcKind
  | extensionKind
  | typeAliasKind
deriving DecidableEq

/-- `ModuleWriter::EmissionState`. -/
inductive EmissionState
  | NotYetDefined
  | DefinitionRequested
  | Defined
deriving DecidableEq

/-- Numeric value of an `EmissionState`, matching the C++ enum values
`NotYetDefined = 0 < DefinitionRequested < Defined` used by the `>=`
comparison in `hasBeenRequested`. -/
def esRank : EmissionState → Nat
  | .NotYetDefined => 0
  | .DefinitionRequested => 1
  | .Defined => 2

/-- Shallow embedding of the interface types walked by
`ReferencedTypeFinder`: direct nominal references, sugared type-alias
references (carrying their singly-desugared underlying type), and bound
generic references with their argument list. -/
inductive Ty
  | nominal (d : Nat)
  | typeAliasRef (d : Nat) (underlying : Ty)
  | boundGeneric (d : Nat) (args : List Ty)

/-- Events written to the output stream `os`.  Each constructor stands for
one textual emission in the C++ code; `printDecl` is a call to the external
printer's `print` for a full declaration. -/
inductive OutEvent
  | fwdClass (d : Nat)
  | fwdProtocol (d : Nat)
  | fwdEnum (d : Nat)
  | fwdCxxValueType (d : Nat)
  | clangTypeMetadata (d : Nat)
  | printDecl (d : Nat)
  | errorDomain (d : Nat)
  | adHocCategory (ms : List Nat)
  | newline
deriving DecidableEq

/-- The read-only declaration graph and external collaborator queries.
Declarations and modules are natural-number identifiers. -/
structure Env where
  outputLangMode : OutputLanguageMode
  /-- The module `M` being emitted. -/
  currentModule : Nat
  kind : Nat → DeclKind
  /-- `D->getModuleContext()`. -/
  moduleOf : Nat → Nat
  /-- `ModuleDecl::isStdlibModule`, per module id. -/
  isStdlibModule : Nat → Bool
  isBuiltinModule : Nat → Bool
  /-- module name equals `Id_simd`. -/
  isSimdModule : Nat → Bool
  /-- module name equals `CLANG_HEADER_MODULE_NAME`. -/
  isClangHeaderModule : Nat → Bool
  /-- `D->hasClangNode()` / `D->getClangNode()` nonempty. -/
  hasClangNode : Nat → Bool
  /-- The explicit clang submodule owning `D`'s clang node after walking
  through implicit parents; `none` when `D` has no clang node or no
  explicit ancestor module exists. -/
  clangOwningExplicitModule : Nat → Option Nat
  /-- `DeclAndTypePrinter::shouldInclude`. -/
  shouldInclude : Nat → Bool
  /-- `getBaseName().userFacingName()` resp. `getName().str()`. -/
  userFacingName : Nat → String
  /-- `ClassDecl::getSuperclassDecl`. -/
  superclass : Nat → Option Nat
  /-- `getLocalProtocols` (for classes: `ConformanceLookupKind::OnlyExplicit`). -/
  localProtocols : Nat → List Nat
  /-- `ProtocolDecl::getInheritedProtocols`. -/
  inheritedProtocols : Nat → List Nat
  /-- `IterableDeclContext::getMembers`. -/
  members : Nat → List Nat
  /-- `ExtensionDecl::getSelfClassDecl`. -/
  selfClassDecl : Nat → Option Nat
  /-- `ExtensionDecl::getExtendedNominal`. -/
  extendedNominal : Nat → Nat
  /-- `ClassDecl::isForeign`. -/
  isForeignClass : Nat → Bool
  /-- `DeclAndTypePrinter::isEmptyExtensionDecl`. -/
  isEmptyExtensionDecl : Nat → Bool
  /-- `Decl::getDeclContext`, used to group delayed members. -/
  declContext : Nat → Nat
  /-- Declaration attributes as (isObjCAttr, isImplicit) pairs. -/
  attrs : Nat → List (Bool × Bool)
  /-- `ValueDecl::getInterfaceType`. -/
  interfaceType : Nat → Ty
  /-- `DeclAndTypePrinter::getObjCTypeDecl` bridging. -/
  getObjCTypeDecl : Nat → Nat
  /-- `ClassDecl::isObjC` resp. `ProtocolDecl::isObjC`. -/
  isObjC : Nat → Bool
  /-- `getForeignClassKind() == ForeignKind::CFType`. -/
  isCFType : Nat → Bool
  /-- `isOSObjectType(CD->getClangDecl())`. -/
  isOSObjectType : Nat → Bool
  /-- `TypeAliasDecl::isCompatibilityAlias`. -/
  isCompatibilityAlias : Nat → Bool
  /-- `sig->getSuperclassBound(param)` is nonnull, per (decl, param index). -/
  hasSuperclassBound : Nat → Nat → Bool
  /-- `sig->getRequiredProtocols(param)`, per (decl, param index). -/
  requiredProtocols : Nat → Nat → List Nat
  /-- the enum conforms to the `Error` protocol (`lookupConformance`). -/
  errorConformance : Nat → Bool
  /-- some enum element has base identifier "Domain". -/
  hasDomainCase : Nat → Bool

/-- `dyn_cast<ValueDecl>` succeeds: every declaration kind handled by the
writer except extensions is a `ValueDecl`. -/
def isValueDeclKind : DeclKind → Bool
  | .extensionKind => false
  | _ => true

/-- `isa<TypeDecl>`: nominal types and type aliases. -/
def isTypeDeclKind : DeclKind → Bool
  | .classKind | .protocolKind | .enumKind | .structKind | .typeAliasKind => true
  | _ => false

/-- `isa<NominalTypeDecl>`. -/
def isNominalKind : DeclKind → Bool
  | .classKind | .protocolKind | .enumKind | .structKind => true
  | _ => false

/-- `ReferencedTypeFinder::isConstrained`: the generic parameter at index
`i` of declaration `d` has a superclass bound or a nonempty set of
required protocols. -/
def isConstrained (env : Env) (d : Nat) (i : Nat) : Bool :=
  env.hasSuperclassBound d i || !(env.requiredProtocols d i).isEmpty

mutual

/-- `ReferencedTypeFinder`'s type walk.  The second argument is the
current value of the mutable `NeedsDefinition` flag; the result is the
sequence of `Callback(finder, TD)` invocations as pairs
`(TD, finder.needsDefinition())`, in invocation order. -/
def RTFwalk (env : Env) : Ty → Bool → List (Nat × Bool)
  | .nominal d, nd => [(d, nd)]
  | .typeAliasRef d u, nd =>
      if env.hasClangNode d && !env.isCompatibilityAlias d then [(d, nd)]
      else RTFwalk env u nd
  | .boundGeneric d args, _ =>
      (d, true) :: RTFwalkArgs env d (env.hasClangNode d) args 0

/-- The `for_each` loop of `visitBoundGenericType`, pairing generic
arguments with the innermost generic parameters by position: before
walking argument `i` the flag is set when the base declaration is
ObjC-generic (`hasClangNode`) and parameter `i` is constrained, and reset
to `false` afterwards. -/
def RTFwalkArgs (env : Env) (d : Nat) (isObjCGeneric : Bool) :
    List Ty → Nat → List (Nat × Bool)
  | [], _ => []
  | a :: rest, i =>
      RTFwalk env a (isObjCGeneric && isConstrained env d i) ++
        RTFwalkArgs env d isObjCGeneric rest (i + 1)

end

/-- The entry point `ReferencedTypeFinder::walk`: the flag starts `false`. -/
def referencedTypeFinderWalk (env : Env) (ty : Ty) : List (Nat × Bool) :=
  RTFwalk env ty false

/-- Mutable state of one `ModuleWriter` instance.  `declsToWrite` is the
work stack with its head as the vector's back (the top); `imports`,
`delayedMembers` and `seenClangTypes` are insertion-ordered sets. -/
structure MWState where
  seenTypes : Nat → EmissionState × Bool
  seenClangTypes : List Nat
  declsToWrite : List Nat
  delayedMembers : List Nat
  imports : List Nat
  out : List OutEvent
  dependsOnStdlib : Bool
  recordedExtensions : List (Nat × Nat)

/-- The initial state: empty ledger, stack, sets and output. -/
def initialMWState : MWState where
  seenTypes := fun _ => (.NotYetDefined, false)
  seenClangTypes := []
  declsToWrite := []
  delayedMembers := []
  imports := []
  out := []
  dependsOnStdlib := false
  recordedExtensions := []

/-- Insertion into an insertion-ordered set (`SmallPtrSet` /
`SmallSetVector` insert): appends when absent. -/
def insertSet (l : List Nat) (x : Nat) : List Nat :=
  if x ∈ l then l else l ++ [x]

/-- Point update of the `seenTypes` ledger. -/
def setSeen (s : MWState) (d : Nat) (v : EmissionState × Bool) : MWState :=
  { s with seenTypes := fun x => if x = d then v else s.seenTypes x }

/-- Append one event to the output stream. -/
def emitEvent (s : MWState) (ev : OutEvent) : MWState :=
  { s with out := s.out ++ [ev] }

/-- `ModuleWriter::addImport`: returns `true` when the declaration's
module was handled as an import (or needs none), `false` when the
declaration is local to the module being emitted. -/
def addImport (env : Env) (s : MWState) (D : Nat) : Bool × MWState :=
  let otherModule := env.moduleOf D
  if otherModule = env.currentModule then
    (false, s)
  else if env.isStdlibModule otherModule then
    (true, { s with dependsOnStdlib := true })
  else if env.isBuiltinModule otherModule then
    (true, s)
  else if env.isSimdModule otherModule then
    (true, s)
  else
    match env.clangOwningExplicitModule D with
    | some clangModule => (true, { s with imports := insertSet s.imports clangModule })
    | none =>
      if env.outputLangMode = .Cxx && !env.hasClangNode D then
        (true, s)
      else if env.outputLangMode = .Cxx && env.isClangHeaderModule otherModule then
        (true, s)
      else
        (true, { s with imports := insertSet s.imports otherModule })

/-- `ModuleWriter::hasBeenRequested`:
`seenTypes.lookup(D).first >= DefinitionRequested`. -/
def hasBeenRequested (s : MWState) (D : Nat) : Bool :=
  decide (1 ≤ esRank (s.seenTypes D).1)

/-- `ModuleWriter::tryRequire`. -/
def tryRequire (env : Env) (s : MWState) (D : Nat) : Bool × MWState :=
  let s1 := (addImport env s D).2
  if (addImport env s D).1 then
    (true, setSeen s1 D (.Defined, true))
  else
    (decide ((s1.seenTypes D).1 = .Defined), s1)

/-- `ModuleWriter::require`. -/
def require (env : Env) (s : MWState) (D : Nat) : Bool × MWState :=
  let s1 := (addImport env s D).2
  if (addImport env s D).1 then
    (true, setSeen s1 D (.Defined, true))
  else
    match (s1.seenTypes D).1 with
    | .NotYetDefined | .DefinitionRequested =>
        let s2 := setSeen s1 D (.DefinitionRequested, (s1.seenTypes D).2)
        (false, { s2 with declsToWrite := D :: s2.declsToWrite })
    | .Defined => (true, s1)

/-- The `forwardDeclare(NTD, Printer)` overload: marks the
`forwardDeclared` flag and emits the name-only form at most once;
stdlib types are skipped outside C++ mode or when not included. -/
def forwardDeclareNTD (env : Env) (s : MWState) (NTD : Nat) (ev : OutEvent) : MWState :=
  if env.isStdlibModule (env.moduleOf NTD) ∧
      (env.outputLangMode ≠ .Cxx ∨ env.shouldInclude NTD = false) then s
  else if (s.seenTypes NTD).2 then s
  else setSeen (emitEvent s ev) NTD ((s.seenTypes NTD).1, true)

/-- `forwardDeclare(const ClassDecl *)`: returns `false` for non-ObjC,
CF-type, or os-object classes without doing anything. -/
def forwardDeclareClass (env : Env) (s : MWState) (CD : Nat) : Bool × MWState :=
  if ¬env.isObjC CD ∨ env.isCFType CD ∨ env.isOSObjectType CD then (false, s)
  else (true, forwardDeclareNTD env s CD (.fwdClass CD))

/-- `forwardDeclare(const ProtocolDecl *)`. -/
def forwardDeclareProtocol (env : Env) (s : MWState) (PD : Nat) : MWState :=
  forwardDeclareNTD env s PD (.fwdProtocol PD)

/-- `forwardDeclare(const EnumDecl *)` (the raw-type print is part of the
single `fwdEnum` event). -/
def forwardDeclareEnum (env : Env) (s : MWState) (ED : Nat) : MWState :=
  forwardDeclareNTD env s ED (.fwdEnum ED)

/-- `ModuleWriter::emitReferencedClangTypeMetadata`. -/
def emitReferencedClangTypeMetadata (env : Env) (s : MWState) (typeDecl : Nat) : MWState :=
  if typeDecl ∈ s.seenClangTypes then s
  else emitEvent { s with seenClangTypes := s.seenClangTypes ++ [typeDecl] }
    (.clangTypeMetadata typeDecl)

/-- `ModuleWriter::forwardDeclareCxxValueTypeIfNeeded`. -/
def forwardDeclareCxxValueTypeIfNeeded (env : Env) (s : MWState) (NTD : Nat) : MWState :=
  forwardDeclareNTD env s NTD (.fwdCxxValueType NTD)

/-- `ModuleWriter::forwardDeclareType`.  The `llvm_unreachable` /
assert-failure branches (generic parameters, associated types, unknown
local type decls) abort the C++ process; they are modelled as leaving the
state unchanged and are excluded by the wellformedness hypotheses of the
theorems below. -/
def forwardDeclareType (env : Env) (s : MWState) (TD : Nat) : MWState :=
  if env.outputLangMode = .Cxx then
    if env.kind TD = .structKind ∨ env.kind TD = .enumKind then
      let s1 := (addImport env s TD).2
      if ¬(addImport env s TD).1 then forwardDeclareCxxValueTypeIfNeeded env s1 TD
      else if env.kind TD = .structKind ∧ env.hasClangNode TD then
        emitReferencedClangTypeMetadata env s1 TD
      else s1
    else s
  else
    match env.kind TD with
    | .classKind =>
        if (forwardDeclareClass env s TD).1 then (forwardDeclareClass env s TD).2
        else (addImport env (forwardDeclareClass env s TD).2 TD).2
    | .protocolKind => forwardDeclareProtocol env s TD
    | .typeAliasKind => if env.hasClangNode TD then (addImport env s TD).2 else s
    | _ =>
        if (addImport env s TD).1 then (addImport env s TD).2
        else
          match env.kind TD with
          | .enumKind => forwardDeclareEnum env (addImport env s TD).2 TD
          | _ => (addImport env s TD).2

/-- Accumulator for one member's reference walk inside
`forwardDeclareMemberTypes`. -/
structure FDMTAcc where
  s : MWState
  hadAnyDelayedMembers : Bool
  needsToBeIndividuallyDelayed : Bool

/-- One invocation of the callback passed to `ReferencedTypeFinder::walk`
inside `forwardDeclareMemberTypes`: `r` is the referenced type declaration
together with `finder.needsDefinition()`. -/
def processMemberRef (env : Env) (container : Nat) (a : FDMTAcc) (r : Nat × Bool) :
    FDMTAcc :=
  if r.1 = container then a
  else
    let TD := if env.outputLangMode ≠ .Cxx then env.getObjCTypeDecl r.1 else r.1
    if r.2 ∧ isNominalKind (env.kind TD) then
      if env.kind container = .classKind then
        if (tryRequire env a.s TD).1 then { a with s := (tryRequire env a.s TD).2 }
        else { s := (tryRequire env a.s TD).2, hadAnyDelayedMembers := true,
               needsToBeIndividuallyDelayed := true }
      else if env.kind container = .extensionKind then
        if (require env a.s TD).1 then { a with s := (require env a.s TD).2 }
        else { a with s := (require env a.s TD).2, hadAnyDelayedMembers := true }
      else if env.kind container = .protocolKind ∧
          (¬hasBeenRequested a.s container ∨ ¬hasBeenRequested a.s TD) then
        if (require env a.s TD).1 then { a with s := (require env a.s TD).2 }
        else { a with s := (require env a.s TD).2, hadAnyDelayedMembers := true }
      else
        { a with s := forwardDeclareType env a.s TD }
    else
      { a with s := forwardDeclareType env a.s TD }

/-- Processing of one member of the container inside
`forwardDeclareMemberTypes`: skip non-included non-value members, collect
nested type declarations carrying an explicit (non-implicit) `@objc`
attribute, and walk the interface types of the remaining members. -/
def processMember (env : Env) (container : Nat)
    (st : MWState × Bool × List Nat) (m : Nat) : MWState × Bool × List Nat :=
  let (s, had, nested) := st
  if ¬isValueDeclKind (env.kind m) ∨ env.shouldInclude m = false then (s, had, nested)
  else if isTypeDeclKind (env.kind m) then
    if (env.attrs m).any (fun attr => attr.1 && !attr.2) then (s, had, nested ++ [m])
    else (s, had, nested)
  else
    let refs := referencedTypeFinderWalk env (env.interfaceType m)
    let a := refs.foldl (processMemberRef env container) ⟨s, had, false⟩
    let s' := if a.needsToBeIndividuallyDelayed then
        { a.s with delayedMembers := insertSet a.s.delayedMembers m }
      else a.s
    (s', a.hadAnyDelayedMembers, nested)

/-- `declsToWrite.insert(declsToWrite.end()-1, nestedTypes.rbegin(),
nestedTypes.rend())`, in the head-is-top representation: the collected
nested types end up directly below the current top of the stack, in their
collection order. -/
def insertBelowTop (stack : List Nat) (xs : List Nat) : List Nat :=
  match stack with
  | [] => xs
  | t :: rest => t :: (xs ++ rest)

/-- `ModuleWriter::forwardDeclareMemberTypes`; returns
`!hadAnyDelayedMembers`. -/
def forwardDeclareMemberTypes (env : Env) (s : MWState) (memberList : List Nat)
    (container : Nat) : Bool × MWState :=
  let r := memberList.foldl (processMember env container) (s, false, [])
  (!r.2.1, { r.1 with declsToWrite := insertBelowTop r.1.declsToWrite r.2.2 })

/-- `allRequirementsSatisfied &= require(...)` folded over a list: every
element is required even after an earlier failure. -/
def requireList (env : Env) (s : MWState) (l : List Nat) : Bool × MWState :=
  l.foldl (fun (acc : Bool × MWState) p =>
    (acc.1 && (require env acc.2 p).1, (require env acc.2 p).2)) (true, s)

/-- The `allRequirementsSatisfied` accumulation of `writeClass`: require
the superclass (when present) and, outside C++ mode, the included local
protocols. -/
def classRequirements (env : Env) (s0 : MWState) (CD : Nat) : Bool × MWState :=
  let r1 :=
    match env.superclass CD with
    | some superDecl => require env s0 superDecl
    | none => (true, s0)
  let r2 :=
    if env.outputLangMode ≠ .Cxx then
      requireList env r1.2 ((env.localProtocols CD).filter env.shouldInclude)
    else (true, r1.2)
  (r1.1 && r2.1, r2.2)

/-- `ModuleWriter::writeClass`. -/
def writeClass (env : Env) (s : MWState) (CD : Nat) : Bool × MWState :=
  let s0 := (addImport env s CD).2
  if (addImport env s CD).1 then (true, s0)
  else if (s0.seenTypes CD).1 = .Defined then (true, s0)
  else
    let rq := classRequirements env s0 CD
    if rq.1 = false then (false, rq.2)
    else
      let s3 := (forwardDeclareMemberTypes env rq.2 (env.members CD) CD).2
      let s4 := setSeen s3 CD (.Defined, true)
      (true, emitEvent (emitEvent s4 .newline) (.printDecl CD))

/-- `ModuleWriter::writeFunc` (its walk callback forward-declares every
referenced type, without bridging). -/
def writeFunc (env : Env) (s : MWState) (FD : Nat) : Bool × MWState :=
  let s0 := (addImport env s FD).2
  if (addImport env s FD).1 then (true, s0)
  else
    let refs := referencedTypeFinderWalk env (env.interfaceType FD)
    let s1 := refs.foldl (fun st r => forwardDeclareType env st r.1) s0
    (true, emitEvent (emitEvent s1 .newline) (.printDecl FD))

/-- `ModuleWriter::writeStruct` (C++ mode walks the struct's members and
those of its recorded extensions, then forward-declares the value type). -/
def writeStruct (env : Env) (s : MWState) (SD : Nat) : Bool × MWState :=
  let s0 := (addImport env s SD).2
  if (addImport env s SD).1 then (true, s0)
  else
    let s3 :=
      if env.outputLangMode = .Cxx then
        let s1 := (forwardDeclareMemberTypes env s0 (env.members SD) SD).2
        let s2 := (s1.recordedExtensions.filter (fun p => p.1 = SD)).foldl
          (fun st p => (forwardDeclareMemberTypes env st (env.members p.2) SD).2) s1
        forwardDeclareCxxValueTypeIfNeeded env s2 SD
      else s0
    (true, emitEvent s3 (.printDecl SD))

/-- `ModuleWriter::writeProtocol`. -/
def writeProtocol (env : Env) (s : MWState) (PD : Nat) : Bool × MWState :=
  let s0 := (addImport env s PD).2
  if (addImport env s PD).1 then (true, s0)
  else if (s0.seenTypes PD).1 = .Defined then (true, s0)
  else
    let r1 :=
      requireList env s0 ((env.inheritedProtocols PD).filter env.shouldInclude)
    if r1.1 = false then (false, r1.2)
    else
      let r2 := forwardDeclareMemberTypes env r1.2 (env.members PD) PD
      if r2.1 = false then (false, r2.2)
      else
        let s3 := setSeen r2.2 PD (.Defined, true)
        (true, emitEvent (emitEvent s3 .newline) (.printDecl PD))

/-- The `allRequirementsSatisfied` accumulation of `writeExtension`:
require the extended class and the included local protocols. -/
def extensionRequirements (env : Env) (s : MWState) (ED : Nat) : Bool × MWState :=
  let r1 :=
    match env.selfClassDecl ED with
    | some CD => require env s CD
    | none => (true, s)
  let r2 := requireList env r1.2 ((env.localProtocols ED).filter env.shouldInclude)
  (r1.1 && r2.1, r2.2)

/-- `ModuleWriter::writeExtension`.  (`getSelfClassDecl` is nonnull for
every extension that survives the ObjC-mode filter; the `none` case is
modelled as a trivially satisfied requirement.) -/
def writeExtension (env : Env) (s : MWState) (ED : Nat) : Bool × MWState :=
  if env.isEmptyExtensionDecl ED then (true, s)
  else
    let rq := extensionRequirements env s ED
    if rq.1 = false then (false, rq.2)
    else
      let r3 := forwardDeclareMemberTypes env rq.2 (env.members ED) ED
      if r3.1 = false then (false, r3.2)
      else (true, emitEvent (emitEvent r3.2 .newline) (.printDecl ED))

/-- `ModuleWriter::writeEnum`. -/
def writeEnum (env : Env) (s : MWState) (ED : Nat) : Bool × MWState :=
  let s0 := (addImport env s ED).2
  if (addImport env s ED).1 then (true, s0)
  else
    let s1 :=
      if env.outputLangMode = .Cxx then
        forwardDeclareCxxValueTypeIfNeeded env
          (forwardDeclareMemberTypes env s0 (env.members ED) ED).2 ED
      else s0
    if (s1.seenTypes ED).1 = .Defined then (true, s1)
    else
      let s2 := emitEvent (setSeen s1 ED (.Defined, true)) (.printDecl ED)
      let s3 :=
        if env.outputLangMode ≠ .Cxx ∧ env.errorConformance ED ∧ env.hasDomainCase ED = false
        then emitEvent s2 (.errorDomain ED)
        else s2
      (true, s3)

/-- `StringRef::compare` as a three-way integer (lexicographic). -/
def strCompare (a b : String) : Int :=
  if a < b then -1 else if b < a then 1 else 0

/-- `getSortName` inside the sort comparator of `ModuleWriter::write`. -/
def getSortName (env : Env) (D : Nat) : String :=
  if isValueDeclKind (env.kind D) then env.userFacingName D
  else
    match env.selfClassDecl D with
    | some baseClass => env.userFacingName baseClass
    | none => env.userFacingName (env.extendedNominal D)

/-- The final tiebreaker of the comparator: `std::mismatch` over the two
protocol-name lists with the predicate `lhsName != rhsName` (so it scans
while the names DIFFER and stops at the first position where they are
EQUAL), then a `compare` of the names at the stopping position. -/
def protoNameMismatchCompare : List String → List String → Int
  | [], _ => 0
  | _ :: _, [] => 0
  | a :: as_, b :: bs =>
      if a ≠ b then protoNameMismatchCompare as_ bs
      else strCompare a b

/-- The comparator passed to `llvm::array_pod_sort` in
`ModuleWriter::write` (negative = `lhs` sorts first).  The case of two
value declarations with equal sort names is an assertion failure in the
C++ code (`assert(!(isa<ValueDecl>(*lhs) && isa<ValueDecl>(*rhs)))`);
it is modelled as `0`. -/
def cmpDecls (env : Env) (lhs rhs : Nat) : Int :=
  let nameOrder := strCompare (getSortName env rhs) (getSortName env lhs)
  if nameOrder ≠ 0 then nameOrder
  else if isValueDeclKind (env.kind lhs) ∧ ¬isValueDeclKind (env.kind rhs) then 1
  else if ¬isValueDeclKind (env.kind lhs) ∧ isValueDeclKind (env.kind rhs) then -1
  else if isValueDeclKind (env.kind lhs) ∧ isValueDeclKind (env.kind rhs) then 0
  else
    let numLHSMembers := (env.members lhs).length
    let numRHSMembers := (env.members rhs).length
    if numLHSMembers ≠ numRHSMembers then
      if numLHSMembers < numRHSMembers then 1 else -1
    else
      let lhsProtos := env.localProtocols lhs
      let rhsProtos := env.localProtocols rhs
      if lhsProtos.length ≠ rhsProtos.length then
        if lhsProtos.length < rhsProtos.length then 1 else -1
      else
        protoNameMismatchCompare (lhsProtos.map env.userFacingName)
          (rhsProtos.map env.userFacingName)

/-- Sorted insertion for the model of the pre-scheduling sort. -/
def orderedInsertLE (le : Nat → Nat → Bool) (x : Nat) : List Nat → List Nat
  | [] => [x]
  | y :: ys => if le x y then x :: y :: ys else y :: orderedInsertLE le x ys

/-- Insertion sort: the model of `llvm::array_pod_sort` (which sorts
ascending with respect to the comparator; the tie order of `array_pod_sort`
is unspecified, so any comparison sort is a faithful model up to ties). -/
def insertionSortLE (le : Nat → Nat → Bool) : List Nat → List Nat
  | [] => []
  | x :: xs => orderedInsertLE le x (insertionSortLE le xs)

/-- `cmpDecls env a b <= 0` as the sort's `le` relation. -/
def sortLE (env : Env) (a b : Nat) : Bool :=
  decide (cmpDecls env a b ≤ 0)

/-- The `remove_if` filter at the start of `ModuleWriter::write`,
negated: `true` when the top-level declaration is kept. -/
def keepTopLevel (env : Env) (D : Nat) : Bool :=
  if isValueDeclKind (env.kind D) then env.shouldInclude D
  else if env.kind D = .extensionKind then
    if env.outputLangMode = .Cxx then true
    else
      match env.selfClassDecl D with
      | none => false
      | some baseClass => env.shouldInclude baseClass && !env.isForeignClass baseClass
  else false

/-- One dispatch of the drain loop body on the declaration `D` currently
at the top of the stack (the `dyn_cast` chain in `ModuleWriter::write`).
The two `llvm_unreachable` branches abort the C++ process and are modelled
as a successful no-op. -/
def stepDecl (env : Env) (s : MWState) (D : Nat) : Bool × MWState :=
  if env.kind D = .enumKind then writeEnum env s D
  else if env.kind D = .classKind then writeClass env s D
  else if env.outputLangMode = .Cxx then
    if env.kind D = .funcKind then writeFunc env s D
    else if env.kind D = .structKind then writeStruct env s D
    else (true, s)
  else if isValueDeclKind (env.kind D) then
    if env.kind D = .protocolKind then writeProtocol env s D
    else if env.kind D = .funcKind then writeFunc env s D
    else (true, s)
  else if env.kind D = .extensionKind then writeExtension env s D
  else (true, s)

/-- The drain loop `while (!declsToWrite.empty()) ...`, with explicit
fuel: `none` means the fuel ran out before the stack emptied.  On success
the loop prints a newline and pops the top of the stack. -/
def writeLoop (env : Env) : Nat → MWState → Option MWState
  | 0, s => if s.declsToWrite.isEmpty then some s else none
  | fuel + 1, s =>
    match h : s.declsToWrite with
    | [] => some s
    | D :: _ =>
      let s1 := (stepDecl env s D).2
      if (stepDecl env s D).1 then
        writeLoop env fuel
          { emitEvent s1 .newline with declsToWrite := s1.declsToWrite.tail }
      else writeLoop env fuel s1

/-- Grouping of the delayed members into maximal runs of consecutive
members sharing a declaration context (the loop over `delayedMembers` at
the end of `ModuleWriter::write`); the run-opening member's context is the
one compared against. -/
def groupRunsAux (env : Env) (ctx : Nat) (cur : List Nat) :
    List Nat → List (List Nat)
  | [] => [cur]
  | m :: rest =>
      if env.declContext m = ctx then groupRunsAux env ctx (cur ++ [m]) rest
      else cur :: groupRunsAux env (env.declContext m) [m] rest

/-- All maximal runs of consecutive delayed members sharing a context. -/
def groupRuns (env : Env) : List Nat → List (List Nat)
  | [] => []
  | m :: rest => groupRunsAux env (env.declContext m) [m] rest

/-- The beginning of `ModuleWriter::write`: the filtered top-level
declarations sorted with the comparator. -/
def sortedTopLevel (env : Env) (topLevelDecls : List Nat) : List Nat :=
  insertionSortLE (sortLE env) (topLevelDecls.filter (keepTopLevel env))

/-- The state the drain loop starts from: the sorted declarations loaded
onto the stack in reverse (the vector's back is the top), and — in C++
mode — the struct extensions recorded with the interop context. -/
def initialWriteState (env : Env) (topLevelDecls : List Nat) : MWState :=
  let sorted := sortedTopLevel env topLevelDecls
  let s0 := { initialMWState with declsToWrite := sorted.reverse }
  if env.outputLangMode = .Cxx then
    let recorded := (sorted.filter (fun D =>
        decide (env.kind D = DeclKind.extensionKind) &&
        decide (env.kind (env.extendedNominal D) = DeclKind.structKind))).map
      (fun D => (env.extendedNominal D, D))
    { s0 with recordedExtensions := recorded }
  else s0

/-- `ModuleWriter::write`: filter and sort the top-level declarations,
load the stack, drain it, then emit the grouped delayed members. -/
def write (env : Env) (topLevelDecls : List Nat) (fuel : Nat) : Option MWState :=
  match writeLoop env fuel (initialWriteState env topLevelDecls) with
  | none => none
  | some s2 =>
    if s2.delayedMembers.isEmpty then some s2
    else some ((groupRuns env s2.delayedMembers).foldl
      (fun st g => emitEvent st (.adHocCategory g)) s2)


/-- The set of nested-type members that `forwardDeclareMemberTypes`
collects for scheduling: included value members that are type
declarations carrying an explicit (non-implicit) `@objc` attribute. -/
def collectNestedTypes (env : Env) (memberList : List Nat) : List Nat :=
  memberList.filter (fun m =>
    isValueDeclKind (env.kind m) && env.shouldInclude m &&
    isTypeDeclKind (env.kind m) &&
    (env.attrs m).any (fun attr => attr.1 && !attr.2))

/-- Three-way comparison induced by a linear order (the shape shared by
`strCompare` and the numeric tiebreakers of the sort comparator). -/
def intCompare {α : Type} [LinearOrder α] (x y : α) : Int :=
  if x < y then -1 else if y < x then 1 else 0

/-- Lexicographic composition of two comparison results. -/
def ordCompose (x y : Int) : Int := if x ≠ 0 then x else y

/-- Comparator level 2 as a key: extensions rank 0, value decls rank 1. -/
def kindRank (env : Env) (d : Nat) : Nat :=
  if isValueDeclKind (env.kind d) then 1 else 0

/-- Comparator level 3 as a key (member count; constant for value decls,
which the comparator never compares by members). -/
def extMembers (env : Env) (d : Nat) : Nat :=
  if isValueDeclKind (env.kind d) then 0 else (env.members d).length

/-- Comparator level 4 as a key (conformance count; constant for value
decls). -/
def extProtos (env : Env) (d : Nat) : Nat :=
  if isValueDeclKind (env.kind d) then 0 else (env.localProtocols d).length

/-- The full sort key of a declaration. -/
def declKey (env : Env) (d : Nat) : String × Nat × Nat × Nat :=
  (getSortName env d, kindRank env d, extMembers env d, extProtos env d)

/-- The comparator as a lexicographic comparison of sort keys (name
descending, then kind rank ascending, then member and conformance counts
descending). -/
def lex4 (k1 k2 : String × Nat × Nat × Nat) : Int :=
  ordCompose (intCompare k2.1 k1.1)
    (ordCompose (intCompare k1.2.1 k2.2.1)
      (ordCompose (intCompare k2.2.2.1 k1.2.2.1)
        (intCompare k2.2.2.2 k1.2.2.2)))

/-- The linear order that interprets the sort keys: name dualised (the
sort is descending by name), then kind rank, then dualised counts. -/
abbrev LexKeyT : Type := Lex (OrderDual String × Lex (Nat × Lex (OrderDual Nat × OrderDual Nat)))

/-- A sort key as an element of the interpreting linear order. -/
def lexKey (k : String × Nat × Nat × Nat) : LexKeyT :=
  toLex (OrderDual.toDual k.1, toLex (k.2.1, toLex (OrderDual.toDual k.2.2.1, OrderDual.toDual k.2.2.2)))

/-! ## Concrete instances used by counterexamples and witnesses -/

/-- A neutral environment: one local module `0`, every declaration a
local included ObjC class with no superclass, conformances or members. -/
def baseEnv : Env where
  outputLangMode := .ObjC
  currentModule := 0
  kind := fun _ => .classKind
  moduleOf := fun _ => 0
  isStdlibModule := fun _ => false
  isBuiltinModule := fun _ => false
  isSimdModule := fun _ => false
  isClangHeaderModule := fun _ => false
  hasClangNode := fun _ => false
  clangOwningExplicitModule := fun _ => none
  shouldInclude := fun _ => true
  userFacingName := fun _ => ""
  superclass := fun _ => none
  localProtocols := fun _ => []
  inheritedProtocols := fun _ => []
  members := fun _ => []
  selfClassDecl := fun _ => none
  extendedNominal := fun _ => 0
  isForeignClass := fun _ => false
  isEmptyExtensionDecl := fun _ => false
  declContext := fun _ => 0
  attrs := fun _ => []
  interfaceType := fun _ => Ty.nominal 0
  getObjCTypeDecl := fun d => d
  isObjC := fun _ => true
  isCFType := fun _ => false
  isOSObjectType := fun _ => false
  isCompatibilityAlias := fun _ => false
  hasSuperclassBound := fun _ _ => false
  requiredProtocols := fun _ _ => []
  errorConformance := fun _ => false
  hasDomainCase := fun _ => false

/-- A state in which the local declaration `1` is already
`DefinitionRequested` and sits on the work stack once. -/
def C1state : MWState :=
  { initialMWState with
    seenTypes := fun x =>
      if x = 1 then (.DefinitionRequested, false) else (.NotYetDefined, false)
    declsToWrite := [1] }

/-- Environment in which the local class `1` has the superclass `5` that
lives in the standard-library module `2`. -/
def C3env : Env :=
  { baseEnv with
    moduleOf := fun d => if d = 5 then 2 else 0
    isStdlibModule := fun m => m == 2
    superclass := fun d => if d = 1 then some 5 else none }


/-- An environment whose every declaration is an empty extension. -/
def C9env : Env :=
  { baseEnv with
    kind := fun _ => .extensionKind
    isEmptyExtensionDecl := fun _ => true }

/-- Environment with the protocol `2` and classes elsewhere. -/
def C2env : Env :=
  { baseEnv with kind := fun d => if d = 2 then .protocolKind else .classKind }

/-- A state in which the protocol `2` is already `DefinitionRequested`
while the dependency `3` is not. -/
def C2state : MWState :=
  { initialMWState with
    seenTypes := fun x =>
      if x = 2 then (.DefinitionRequested, false) else (.NotYetDefined, false) }

/-- Environment where container `9` has three members: nested class `1`
with an explicit `@objc` attribute, nested class `2` whose `@objc`
attribute is implicit, and the function member `3`. -/
def C10env : Env :=
  { baseEnv with
    kind := fun d => if d = 3 then .funcKind else .classKind
    members := fun d => if d = 9 then [1, 2, 3] else []
    attrs := fun d =>
      if d = 1 then [(true, false)] else if d = 2 then [(true, true)] else []
    interfaceType := fun _ => Ty.nominal 4 }

/-- A state with the container `9` on top of the work stack. -/
def C10state : MWState := { initialMWState with declsToWrite := [9] }


/-- Environment where declaration `1` is foreign-declared
(`hasClangNode`) and its generic parameter `0` carries a superclass
bound. -/
def C5wenv : Env :=
  { baseEnv with
    hasClangNode := fun d => d == 1
    hasSuperclassBound := fun d i => d == 1 && i == 0 }


/-- Environment with the class `1` named "A", two extensions `2` and `4`
of it (same sort name "A", no members, one conformance each with the
DIFFERENT names "P" and "Q"). -/
def C6env : Env :=
  { baseEnv with
    kind := fun d => if d = 2 ∨ d = 4 then .extensionKind else .classKind
    selfClassDecl := fun d => if d = 2 ∨ d = 4 then some 1 else none
    userFacingName := fun d => if d = 7 then "P" else if d = 8 then "Q" else "A"
    localProtocols := fun d => if d = 2 then [7] else if d = 4 then [8] else [] }

/-- Environment with a class `1` and two indistinguishable-to-the-sort
extensions `2` and `4` of it (equal sort keys). -/
def C8env : Env :=
  { baseEnv with
    kind := fun d => if d = 2 ∨ d = 4 then .extensionKind else .classKind
    selfClassDecl := fun d => if d = 2 ∨ d = 4 then some 1 else none }

/-- Environment whose classes `1` and `2` have the distinct names "A" and
"B" (a tie-free declaration set). -/
def C8wenv : Env :=
  { baseEnv with userFacingName := fun d => if d = 1 then "A" else "B" }

def seenLE (s t : MWState) : Prop :=
  ∀ d, esRank (s.seenTypes d).1 ≤ esRank (t.seenTypes d).1

def printCount (s : MWState) (d : Nat) : Nat :=
  s.out.count (OutEvent.printDecl d)

def isFuncOrExtKind (env : Env) (d : Nat) : Prop :=
  env.kind d = .funcKind ∨ env.kind d = .extensionKind

def EffOK (env : Env) (s t : MWState) : Prop :=
  seenLE s t ∧
  (∀ d, isFuncOrExtKind env d → t.declsToWrite.count d = s.declsToWrite.count d) ∧
  (∀ d, printCount t d = printCount s d)

def guardedKind (env : Env) (d : Nat) : Prop :=
  env.kind d = .classKind ∨ env.kind d = .protocolKind ∨ env.kind d = .enumKind

def WriterOK (env : Env) (D : Nat) (s : MWState) (res : Bool × MWState) : Prop :=
  EffOK env s res.2 ∨
  (res.1 = true ∧
   seenLE s res.2 ∧
   (∀ d, isFuncOrExtKind env d → res.2.declsToWrite.count d = s.declsToWrite.count d) ∧
   (∀ d, d ≠ D → printCount res.2 d = printCount s d) ∧
   printCount res.2 D = printCount s D + 1 ∧
   (guardedKind env D → (s.seenTypes D).1 ≠ .Defined ∧ (res.2.seenTypes D).1 = .Defined) ∧
   (isFuncOrExtKind env D →
     res.2.declsToWrite = s.declsToWrite ∨
     res.2.declsToWrite =
       insertBelowTop s.declsToWrite (collectNestedTypes env (env.members D))))

def C4Inv (env : Env) (s : MWState) : Prop :=
  (∀ d, printCount s d ≤ 1) ∧
  (∀ d, guardedKind env d → 1 ≤ printCount s d → (s.seenTypes d).1 = .Defined) ∧
  (∀ d, isFuncOrExtKind env d → printCount s d + s.declsToWrite.count d ≤ 1)

/-- Environment with a single kept-but-empty extension `6` of the local
included class `0`. -/
def C4env : Env :=
  { baseEnv with
    kind := fun d => if d = 6 then .extensionKind else .classKind
    selfClassDecl := fun d => if d = 6 then some 0 else none
    isEmptyExtensionDecl := fun _ => true }

/-- The final state of the emission pass on the single extension `6`. -/
def C4wsf : MWState := (write C4env [6] 2).getD initialMWState

/-- The hard-dependency list of a declaration: the declarations on which
the writers invoke `require` during the requirement phase (the member-free
fragment of the writers). -/
def reqList (env : Env) (D : Nat) : List Nat :=
  match env.kind D with
  | .classKind =>
      (match env.superclass D with | some e => [e] | none => []) ++
        (env.localProtocols D).filter env.shouldInclude
  | .protocolKind => (env.inheritedProtocols D).filter env.shouldInclude
  | .extensionKind =>
      (match env.selfClassDecl D with | some e => [e] | none => []) ++
        (env.localProtocols D).filter env.shouldInclude
  | _ => []

/-- The success condition of a single `require`: the declaration is
handled by `addImport` (another module) or is already `Defined`. -/
def reqCond (env : Env) (s : MWState) (e : Nat) : Prop :=
  (addImport env s e).1 = true ∨ (s.seenTypes e).1 = .Defined

/-- The number of not-yet-`Defined` declarations of a finite universe:
the termination measure's major component. -/
def uCount (U : List Nat) (s : MWState) : Nat :=
  (U.filter (fun d => decide ((s.seenTypes d).1 ≠ .Defined))).length

/-- Environment with the cyclic superclass chain `1 <- 2 <- 1`. -/
def C7env : Env :=
  { baseEnv with
    superclass := fun d =>
      if d = 1 then some 2 else if d = 2 then some 1 else none }

/-- The states the cyclic run stays inside: a nonempty stack of copies of
`1` and `2`, neither of which is `Defined`. -/
def C7Bad (s : MWState) : Prop :=
  s.declsToWrite ≠ [] ∧ (∀ d ∈ s.declsToWrite, d = 1 ∨ d = 2) ∧
    (s.seenTypes 1).1 ≠ .Defined ∧ (s.seenTypes 2).1 ≠ .Defined

/-- Acyclic variant of the superclass chain: class `1` extends class `2`. -/
def C7wenv : Env :=
  { baseEnv with superclass := fun d => if d = 1 then some 2 else none }

/-- Divergence of the emission pass: no amount of fuel completes it. -/
def divergesOn (env : Env) (tds : List Nat) : Prop :=
  ∀ fuel : Nat, write env tds fuel = none

/-! ## Theorems -/

/-- Helper: `addImport` on a declaration of the module being emitted
reports `false` and changes nothing. -/
theorem addImport_local (env : Env) (s : MWState) (D : Nat)
    (hm : env.moduleOf D = env.currentModule) : addImport env s D = (false, s) := by
  simp [addImport, hm]

/-- Helper: writing back the value already stored in the ledger is the
identity. -/
theorem setSeen_eq_self (s : MWState) (D : Nat) : setSeen s D (s.seenTypes D) = s := by
  unfold setSeen
  have h : (fun x => if x = D then s.seenTypes D else s.seenTypes x) = s.seenTypes := by
    funext x; by_cases hx : x = D <;> simp [hx]
  rw [h]

/-- Helper: `insertSet` makes its argument a member. -/
theorem mem_insertSet (l : List Nat) (x : Nat) : x ∈ insertSet l x := by
  unfold insertSet
  split <;> simp_all

/-- C1, counterexample: the local declaration `1` is already
`DefinitionRequested` and on the work stack once; `require` reports
not-yet-satisfied but pushes `1` onto the stack AGAIN, so the stack then
contains it twice — contradicting "does not add D to the work stack again"
and "the work stack contains any given declaration at most once". -/
theorem C1_counterexample :
    C1state.declsToWrite.count 1 = 1 ∧
    (C1state.seenTypes 1).1 = .DefinitionRequested ∧
    (require baseEnv C1state 1).1 = false ∧
    ((require baseEnv C1state 1).2.declsToWrite).count 1 = 2 := by
  decide

/-- C1, amended: for a local declaration already `DefinitionRequested`,
`require` reports not-yet-satisfied and leaves the ledger, imports and
output unchanged, but pushes the declaration onto the work stack again
(the stack may therefore hold a declaration more than once). -/
theorem C1_require_requested (env : Env) (s : MWState) (D : Nat)
    (hlocal : env.moduleOf D = env.currentModule)
    (hreq : (s.seenTypes D).1 = .DefinitionRequested) :
    require env s D = (false, { s with declsToWrite := D :: s.declsToWrite }) := by
  unfold require
  rw [addImport_local env s D hlocal]
  simp only []
  rw [hreq]
  have hv : setSeen s D (EmissionState.DefinitionRequested, (s.seenTypes D).2) = s := by
    have h2 : (EmissionState.DefinitionRequested, (s.seenTypes D).2) = s.seenTypes D := by
      cases hsd : s.seenTypes D with
      | mk a b => rw [hsd] at hreq; simp at hreq; rw [hreq]
    rw [h2, setSeen_eq_self]
  rw [hv]
  rfl

/-- C1, witness for the amended theorem at the concrete state `C1state`. -/
theorem C1_witness :
    require baseEnv C1state 1 =
      (false, { C1state with declsToWrite := 1 :: C1state.declsToWrite }) :=
  C1_require_requested baseEnv C1state 1 rfl rfl

/-- C3, counterexample: the local class `1` references its superclass `5`
from the standard-library module `2` during emission, yet after the whole
pass the import set is empty — the foreign module was tracked only through
the separate `dependsOnStdlib` flag, never added to the import set. -/
theorem C3_counterexample :
    C3env.moduleOf 5 ≠ C3env.currentModule ∧
    (write C3env [1] 2).map (fun s => s.imports) = some [] ∧
    (write C3env [1] 2).map (fun s => s.dependsOnStdlib) = some true := by
  decide

/-- C3, amended: for every declaration of a foreign module, `addImport`
reports success and either records the foreign module in the import set,
or the reference falls under one of the deliberate exemptions: the
standard-library module (tracked via `dependsOnStdlib` only), the builtin
module, the simd module, an explicit Clang submodule recorded instead of
the Swift module, or — in C++ mode — a declaration without a Clang node or
from the Clang header module. -/
theorem C3_addImport_cases (env : Env) (s : MWState) (D : Nat)
    (hm : env.moduleOf D ≠ env.currentModule) :
    (addImport env s D).1 = true ∧
    (env.isStdlibModule (env.moduleOf D) = true ∨
     env.isBuiltinModule (env.moduleOf D) = true ∨
     env.isSimdModule (env.moduleOf D) = true ∨
     (∃ cm, env.clangOwningExplicitModule D = some cm ∧
        cm ∈ (addImport env s D).2.imports) ∨
     (env.outputLangMode = .Cxx ∧ env.hasClangNode D = false) ∨
     (env.outputLangMode = .Cxx ∧ env.isClangHeaderModule (env.moduleOf D) = true) ∨
     env.moduleOf D ∈ (addImport env s D).2.imports) := by
  unfold addImport
  simp only [hm, if_false]
  cases hc : env.clangOwningExplicitModule D with
  | some cm =>
    split_ifs with h1 h2 h3 <;> simp_all
    exact Or.inl (mem_insertSet s.imports cm)
  | none =>
    split_ifs with h1 h2 h3 h4 h5 <;> simp_all
    exact Or.inr (Or.inr (mem_insertSet s.imports (env.moduleOf D)))

/-- C3, witness for the amended theorem: declaration `5` of `C3env` lives
in the foreign standard-library module `2`. -/
theorem C3_witness :
    (addImport C3env initialMWState 5).1 = true ∧
    (C3env.isStdlibModule (C3env.moduleOf 5) = true ∨
     C3env.isBuiltinModule (C3env.moduleOf 5) = true ∨
     C3env.isSimdModule (C3env.moduleOf 5) = true ∨
     (∃ cm, C3env.clangOwningExplicitModule 5 = some cm ∧
        cm ∈ (addImport C3env initialMWState 5).2.imports) ∨
     (C3env.outputLangMode = .Cxx ∧ C3env.hasClangNode 5 = false) ∨
     (C3env.outputLangMode = .Cxx ∧
        C3env.isClangHeaderModule (C3env.moduleOf 5) = true) ∨
     C3env.moduleOf 5 ∈ (addImport C3env initialMWState 5).2.imports) :=
  C3_addImport_cases C3env initialMWState 5 (by decide)


/-- Helper: `emitEvent` does not touch the work stack. -/
theorem emitEvent_declsToWrite (s : MWState) (ev : OutEvent) :
    (emitEvent s ev).declsToWrite = s.declsToWrite := rfl

/-- Helper: `setSeen` does not touch the work stack. -/
theorem setSeen_declsToWrite (s : MWState) (d : Nat) (v : EmissionState × Bool) :
    (setSeen s d v).declsToWrite = s.declsToWrite := rfl

/-- Helper: `addImport` does not touch the work stack. -/
theorem addImport_declsToWrite (env : Env) (s : MWState) (D : Nat) :
    (addImport env s D).2.declsToWrite = s.declsToWrite := by
  simp only [addImport]
  repeat' split
  all_goals rfl

/-- Helper: `forwardDeclare(NTD, printer)` does not touch the work stack. -/
theorem forwardDeclareNTD_declsToWrite (env : Env) (s : MWState) (NTD : Nat) (ev : OutEvent) :
    (forwardDeclareNTD env s NTD ev).declsToWrite = s.declsToWrite := by
  unfold forwardDeclareNTD
  split_ifs <;> rfl

/-- Helper: `emitReferencedClangTypeMetadata` does not touch the work stack. -/
theorem emitRCTM_declsToWrite (env : Env) (s : MWState) (d : Nat) :
    (emitReferencedClangTypeMetadata env s d).declsToWrite = s.declsToWrite := by
  unfold emitReferencedClangTypeMetadata
  split_ifs <;> rfl

/-- Helper: `forwardDeclareType` never schedules anything on the work
stack (it is the weaker, name-only channel). -/
theorem fdt_declsToWrite (env : Env) (s : MWState) (TD : Nat) :
    (forwardDeclareType env s TD).declsToWrite = s.declsToWrite := by
  unfold forwardDeclareType forwardDeclareClass forwardDeclareProtocol forwardDeclareEnum
    forwardDeclareCxxValueTypeIfNeeded
  repeat' split
  all_goals simp only [forwardDeclareNTD_declsToWrite, emitRCTM_declsToWrite,
    addImport_declsToWrite, emitEvent_declsToWrite, setSeen_declsToWrite]

/-- C2, counterexample: the protocol container `2` HAS already been
requested while the dependency `3` has not; the claim says the scheduler
should then fall through to the give-up/forward-declare fallback, but the
code takes the `require` path: it pushes `3` onto the work stack and
marks the member delayed. -/
theorem C2_counterexample :
    hasBeenRequested C2state 2 = true ∧
    hasBeenRequested C2state 3 = false ∧
    (processMemberRef C2env 2 ⟨C2state, false, false⟩ (3, true)).s.declsToWrite = [3] ∧
    (processMemberRef C2env 2 ⟨C2state, false, false⟩ (3, true)).hadAnyDelayedMembers = true := by
  decide

/-- C2, amended: for a full-definition dependency `TD0` of a member of a
protocol-like container `P`, the resolution is delayed via `require`
whenever at least one of `P` and the (bridged) dependency has not been
requested; only when BOTH have already been requested does the scheduler
fall through to forward-declare-only (which schedules nothing). -/
theorem C2_protocol_relaxation (env : Env) (a : FDMTAcc) (P TD0 : Nat)
    (hkP : env.kind P = .protocolKind)
    (hne : TD0 ≠ P)
    (hmode : env.outputLangMode = .ObjC)
    (hnom : isNominalKind (env.kind (env.getObjCTypeDecl TD0)) = true) :
    ((hasBeenRequested a.s P = false ∨
        hasBeenRequested a.s (env.getObjCTypeDecl TD0) = false) →
      processMemberRef env P a (TD0, true) =
        (if (require env a.s (env.getObjCTypeDecl TD0)).1 then
          { a with s := (require env a.s (env.getObjCTypeDecl TD0)).2 }
        else
          { a with s := (require env a.s (env.getObjCTypeDecl TD0)).2,
                   hadAnyDelayedMembers := true })) ∧
    (hasBeenRequested a.s P = true ∧
        hasBeenRequested a.s (env.getObjCTypeDecl TD0) = true →
      processMemberRef env P a (TD0, true) =
        { a with s := forwardDeclareType env a.s (env.getObjCTypeDecl TD0) } ∧
      (forwardDeclareType env a.s (env.getObjCTypeDecl TD0)).declsToWrite =
        a.s.declsToWrite) := by
  constructor
  · intro hcond
    unfold processMemberRef
    simp only [hne, if_false, hmode]
    have hP : ¬env.kind P = DeclKind.classKind := by rw [hkP]; intro h; cases h
    have hP2 : ¬env.kind P = DeclKind.extensionKind := by rw [hkP]; intro h; cases h
    simp only [hP, hP2, if_false, hkP, hnom]
    rcases hcond with h | h <;> simp_all
  · intro ⟨h1, h2⟩
    unfold processMemberRef
    simp only [hne, if_false, hmode]
    have hP : ¬env.kind P = DeclKind.classKind := by rw [hkP]; intro h; cases h
    have hP2 : ¬env.kind P = DeclKind.extensionKind := by rw [hkP]; intro h; cases h
    simp only [hP, hP2, if_false, hkP, hnom]
    simp_all [fdt_declsToWrite]

/-- C2, witness for the amended theorem: with the protocol `2` requested
but the class `3` unrequested, the member reference takes the `require`
path and the member is marked delayed. -/
theorem C2_witness :
    processMemberRef C2env 2 ⟨C2state, false, false⟩ (3, true) =
      { s := (require C2env C2state 3).2, hadAnyDelayedMembers := true,
        needsToBeIndividuallyDelayed := false } := by
  have h := (C2_protocol_relaxation C2env ⟨C2state, false, false⟩ 2 3 rfl
    (by decide) rfl rfl).1 (Or.inr (by decide))
  rw [h]
  rfl

/-- C9: an extension with zero printable members is processed successfully
and the entire writer state — output stream, import set, ledger, work
stack, delayed members — is left exactly unchanged. -/
theorem C9_writeExtension_empty (env : Env) (s : MWState) (ED : Nat)
    (h : env.isEmptyExtensionDecl ED = true) :
    writeExtension env s ED = (true, s) := by
  unfold writeExtension
  simp [h]

/-- C9, witness at a concrete empty extension. -/
theorem C9_witness : writeExtension C9env initialMWState 4 = (true, initialMWState) :=
  C9_writeExtension_empty C9env initialMWState 4 rfl

/-- Helper: one member's processing appends the member to the collected
nested-type list exactly when it is an included nested type declaration
with an explicit `@objc` attribute. -/
theorem processMember_nested (env : Env) (c : Nat) (st : MWState × Bool × List Nat) (m : Nat) :
    (processMember env c st m).2.2 =
      st.2.2 ++ (if (isValueDeclKind (env.kind m) && env.shouldInclude m &&
        isTypeDeclKind (env.kind m) &&
        (env.attrs m).any (fun attr => attr.1 && !attr.2)) = true
        then [m] else []) := by
  obtain ⟨s, had, nested⟩ := st
  unfold processMember
  split_ifs with h1 h2 h3 <;> simp_all

/-- Helper: the member fold collects exactly `collectNestedTypes`. -/
theorem fold_nested (env : Env) (c : Nat) (ms : List Nat) :
    ∀ (st : MWState × Bool × List Nat),
    (ms.foldl (processMember env c) st).2.2 = st.2.2 ++ collectNestedTypes env ms := by
  induction ms with
  | nil => intro st; simp [collectNestedTypes]
  | cons m rest ih =>
    intro st
    rw [List.foldl_cons, ih]
    rw [processMember_nested]
    unfold collectNestedTypes
    rw [List.filter_cons]
    split_ifs with h <;> simp [h, collectNestedTypes]

/-- C10: a nested type member without an explicit `@objc` attribute is
skipped entirely (its processing changes nothing); the collected
nested-type list is exactly the included type-decl members with an
explicit attribute; and those are inserted directly below the top of the
work stack (the container being processed), hence emitted immediately
after it. -/
theorem C10_nested_type_scheduling (env : Env) (s : MWState)
    (memberList : List Nat) (container : Nat) :
    (∀ (st : MWState × Bool × List Nat) (m : Nat),
        isTypeDeclKind (env.kind m) = true →
        (env.attrs m).any (fun attr => attr.1 && !attr.2) = false →
        processMember env container st m = st) ∧
    ((memberList.foldl (processMember env container) (s, false, [])).2.2 =
        collectNestedTypes env memberList) ∧
    (∀ m, m ∈ collectNestedTypes env memberList ↔
        (m ∈ memberList ∧ isValueDeclKind (env.kind m) = true ∧
         env.shouldInclude m = true ∧ isTypeDeclKind (env.kind m) = true ∧
         (env.attrs m).any (fun attr => attr.1 && !attr.2) = true)) ∧
    ((forwardDeclareMemberTypes env s memberList container).2.declsToWrite =
      insertBelowTop
        ((memberList.foldl (processMember env container) (s, false, [])).1.declsToWrite)
        (collectNestedTypes env memberList)) := by
  refine ⟨?_, ?_, ?_, ?_⟩
  · intro st m h1 h2
    obtain ⟨s0, had, nested⟩ := st
    unfold processMember
    split_ifs with hA hB <;> simp_all
  · rw [fold_nested]
    simp
  · intro m
    unfold collectNestedTypes
    simp [List.mem_filter]
    tauto
  · unfold forwardDeclareMemberTypes
    simp only []
    rw [fold_nested]
    simp

/-- C10, witness: the implicitly-`@objc` nested class `2` is skipped
entirely, while the explicitly-`@objc` nested class `1` ends up on the
work stack directly below its container `9`. -/
theorem C10_witness :
    processMember C10env 9 (C10state, false, []) 2 = (C10state, false, []) ∧
    (forwardDeclareMemberTypes C10env C10state [1, 2, 3] 9).2.declsToWrite = [9, 1] := by
  have h := C10_nested_type_scheduling C10env C10state [1, 2, 3] 9
  exact ⟨h.1 (C10state, false, []) 2 (by decide) (by decide), by rw [h.2.2.2]; decide⟩


/-- Helper: the `for_each` argument loop of `visitBoundGenericType`
decomposed per argument position: the reports of argument `j` are its own
walk with the flag `isObjCGeneric && isConstrained(sig, param_j)`. -/
theorem RTFwalkArgs_eq_flatMap (env : Env) (d : Nat) (g : Bool) :
    ∀ (args : List Ty) (i : Nat),
    RTFwalkArgs env d g args i =
      (args.enumFrom i).flatMap
        (fun p => RTFwalk env p.2 (g && isConstrained env d p.1)) := by
  intro args
  induction args with
  | nil => intro i; rfl
  | cons a rest ih =>
    intro i
    rw [RTFwalkArgs, ih]
    rfl

/-- C5, counterexample: the bound generic `1<2<3>>` whose base `1` is NOT
foreign-declared: the claim says its argument `2<3>` then needs only a
name, but the finder reports the argument's declaration `2` as requiring
a full definition (every bound generic reference does), refuting the
"only if" direction of the claim. -/
theorem C5_counterexample :
    baseEnv.hasClangNode 1 = false ∧
    referencedTypeFinderWalk baseEnv
        (Ty.boundGeneric 1 [Ty.boundGeneric 2 [Ty.nominal 3]]) =
      [(1, true), (2, true), (3, false)] ∧
    RTFwalk baseEnv (Ty.boundGeneric 2 [Ty.nominal 3])
        (baseEnv.hasClangNode 1 && isConstrained baseEnv 1 0) =
      [(2, true), (3, false)] := by
  decide

/-- C5, amended: for every bound generic reference the base declaration
is reported first as requiring a full definition, and each argument is
walked with the flag `hasClangNode(base) && isConstrained(param)`; a
DIRECT nominal-type argument is reported as requiring a full definition
iff the base is foreign-declared and its parameter has a superclass bound
or a nonempty required-protocol set (an argument that is itself a bound
generic always reports its own base as needing a full definition). -/
theorem C5_boundGeneric_args (env : Env) (d : Nat) (args : List Ty) (nd : Bool) :
    (RTFwalk env (Ty.boundGeneric d args) nd =
      (d, true) :: (args.enumFrom 0).flatMap
        (fun p => RTFwalk env p.2 (env.hasClangNode d && isConstrained env d p.1))) ∧
    (∀ j n, (j, Ty.nominal n) ∈ args.enumFrom 0 →
      RTFwalk env (Ty.nominal n) (env.hasClangNode d && isConstrained env d j) =
        [(n, env.hasClangNode d && isConstrained env d j)] ∧
      ((n, true) ∈ RTFwalk env (Ty.nominal n)
          (env.hasClangNode d && isConstrained env d j) ↔
        (env.hasClangNode d = true ∧ isConstrained env d j = true))) := by
  constructor
  · rw [RTFwalk, RTFwalkArgs_eq_flatMap]
  · intro j n _
    refine ⟨rfl, ?_⟩
    rw [RTFwalk]
    constructor
    · intro h
      simp only [List.mem_singleton, Prod.mk.injEq] at h
      have h2 := h.2.symm
      simp [Bool.and_eq_true] at h2
      exact h2
    · intro ⟨h1, h2⟩
      simp [h1, h2]

/-- C5, witness: a foreign-declared base with a superclass-bounded
parameter makes its nominal argument `3` reported as needing a full
definition. -/
theorem C5_witness :
    (3, true) ∈ RTFwalk C5wenv (Ty.nominal 3)
      (C5wenv.hasClangNode 1 && isConstrained C5wenv 1 0) :=
  (((C5_boundGeneric_args C5wenv 1 [Ty.nominal 3] false).2 0 3 (by simp)).2).mpr
    ⟨rfl, by decide⟩


/-- Helper: the three-way string comparison is reflexive-zero. -/
theorem strCompare_self (a : String) : strCompare a a = 0 := by
  simp [strCompare]

/-- Helper: the three-way string comparison is zero only on equal strings. -/
theorem strCompare_eq_zero_iff (a b : String) : strCompare a b = 0 ↔ a = b := by
  unfold strCompare
  split_ifs with h1 h2
  · constructor
    · intro h; cases h
    · intro h; exact absurd h1 (by simp [h])
  · constructor
    · intro h; cases h
    · intro h; exact absurd h2 (by simp [h])
  · simp
    exact le_antisymm (not_lt.mp h2) (not_lt.mp h1)

/-- Helper: the comparator's final tiebreaker ALWAYS returns 0: the
`std::mismatch` predicate is `lhsName != rhsName`, so the scan stops at
the first position where the names are EQUAL (or at the end), and the
final `compare` therefore compares two equal names. -/
theorem protoNameMismatchCompare_eq_zero (as bs : List String) :
    protoNameMismatchCompare as bs = 0 := by
  induction as generalizing bs with
  | nil => rfl
  | cons a rest ih =>
    cases bs with
    | nil => rfl
    | cons b bs' =>
      unfold protoNameMismatchCompare
      split_ifs with h
      · exact ih bs'
      · push_neg at h
        rw [h]; exact strCompare_self b

/-- C6, counterexample: (i) the plain class `1` compares AFTER the
same-name extension `2` (`cmpDecls = Descending = 1`), where the claim
puts the plain declaration before the extension; (ii) the two DISTINCT
extensions `2` and `4` — same name, same member count, same conformance
count but DIFFERENT conformance names "P" and "Q" — compare equal,
refuting both the lexicographic conformance-name tiebreaker and "any two
distinct declarations compare unequal". -/
theorem C6_counterexample :
    cmpDecls C6env 1 2 = 1 ∧
    (2 : Nat) ≠ 4 ∧
    C6env.userFacingName 7 ≠ C6env.userFacingName 8 ∧
    cmpDecls C6env 2 4 = 0 := by
  refine ⟨?_, by decide, by decide, ?_⟩
  · show cmpDecls C6env 1 2 = 1
    unfold cmpDecls
    have h1 : getSortName C6env 1 = "A" := rfl
    have h2 : getSortName C6env 2 = "A" := rfl
    rw [h1, h2, strCompare_self]
    norm_num
    decide
  · show cmpDecls C6env 2 4 = 0
    unfold cmpDecls
    have h1 : getSortName C6env 2 = "A" := rfl
    have h2 : getSortName C6env 4 = "A" := rfl
    rw [h1, h2, strCompare_self]
    norm_num
    rw [protoNameMismatchCompare_eq_zero]
    decide

/-- C6, amended: the comparator orders descending by user-facing name; a
plain declaration sorts AFTER an extension of the same name (so after the
reversal for the LIFO stack the plain declaration is emitted first);
among extensions the one with fewer members sorts later, then the one
with fewer local conformances sorts later; the conformance-name
tiebreaker never breaks a tie (its mismatch predicate is inverted), so
two distinct extensions agreeing on name, member count and conformance
count compare EQUAL; the initial work stack is the stable insertion sort
of the filtered declarations under this comparator, reversed. -/
theorem C6_comparator (env : Env) :
    (∀ lhs rhs, strCompare (getSortName env rhs) (getSortName env lhs) ≠ 0 →
        cmpDecls env lhs rhs = strCompare (getSortName env rhs) (getSortName env lhs)) ∧
    (∀ lhs rhs, getSortName env lhs = getSortName env rhs →
        isValueDeclKind (env.kind lhs) = true → isValueDeclKind (env.kind rhs) = false →
        cmpDecls env lhs rhs = 1) ∧
    (∀ lhs rhs, getSortName env lhs = getSortName env rhs →
        isValueDeclKind (env.kind lhs) = false → isValueDeclKind (env.kind rhs) = true →
        cmpDecls env lhs rhs = -1) ∧
    (∀ lhs rhs, getSortName env lhs = getSortName env rhs →
        isValueDeclKind (env.kind lhs) = false → isValueDeclKind (env.kind rhs) = false →
        (env.members lhs).length ≠ (env.members rhs).length →
        cmpDecls env lhs rhs =
          (if (env.members lhs).length < (env.members rhs).length then 1 else -1)) ∧
    (∀ lhs rhs, getSortName env lhs = getSortName env rhs →
        isValueDeclKind (env.kind lhs) = false → isValueDeclKind (env.kind rhs) = false →
        (env.members lhs).length = (env.members rhs).length →
        (env.localProtocols lhs).length ≠ (env.localProtocols rhs).length →
        cmpDecls env lhs rhs =
          (if (env.localProtocols lhs).length < (env.localProtocols rhs).length then 1 else -1)) ∧
    (∀ lhs rhs, getSortName env lhs = getSortName env rhs →
        isValueDeclKind (env.kind lhs) = false → isValueDeclKind (env.kind rhs) = false →
        (env.members lhs).length = (env.members rhs).length →
        (env.localProtocols lhs).length = (env.localProtocols rhs).length →
        cmpDecls env lhs rhs = 0) ∧
    (∀ tds, (initialWriteState env tds).declsToWrite =
        (insertionSortLE (sortLE env) (tds.filter (keepTopLevel env))).reverse) := by
  have hz : ∀ lhs rhs : Nat, getSortName env lhs = getSortName env rhs →
      strCompare (getSortName env rhs) (getSortName env lhs) = 0 := by
    intro lhs rhs h; rw [h]; exact strCompare_self _
  refine ⟨?_, ?_, ?_, ?_, ?_, ?_, ?_⟩
  · intro lhs rhs h
    unfold cmpDecls
    rw [if_pos h]
  · intro lhs rhs hname h1 h2
    unfold cmpDecls
    simp [hz lhs rhs hname, h1, h2]
  · intro lhs rhs hname h1 h2
    unfold cmpDecls
    simp [hz lhs rhs hname, h1, h2]
  · intro lhs rhs hname h1 h2 hm
    unfold cmpDecls
    simp [hz lhs rhs hname, h1, h2, hm]
  · intro lhs rhs hname h1 h2 hm hp
    unfold cmpDecls
    simp [hz lhs rhs hname, h1, h2, hm, hp]
  · intro lhs rhs hname h1 h2 hm hp
    unfold cmpDecls
    simp [hz lhs rhs hname, h1, h2, hm, hp, protoNameMismatchCompare_eq_zero]
  · intro tds
    unfold initialWriteState sortedTopLevel
    split_ifs <;> rfl

/-- C6, witness: the amended comparator characterization applied at the
concrete declarations of `C6env`. -/
theorem C6_witness :
    cmpDecls C6env 1 2 = 1 ∧ cmpDecls C6env 2 4 = 0 := by
  have h := C6_comparator C6env
  exact ⟨h.2.1 1 2 rfl rfl rfl, h.2.2.2.2.2.1 2 4 rfl rfl rfl rfl rfl⟩


/-- Helper: `strCompare` is the generic three-way comparison on strings. -/
theorem strCompare_eq_intCompare (a b : String) : strCompare a b = intCompare a b := by
  unfold strCompare intCompare
  split_ifs <;> rfl

/-- Helper: the sort comparator equals the lexicographic comparison of
the declarations' sort keys (using that the conformance-name level never
distinguishes). -/
theorem cmpDecls_eq_lex4 (env : Env) (a b : Nat) :
    cmpDecls env a b = lex4 (declKey env a) (declKey env b) := by
  unfold cmpDecls lex4 declKey ordCompose kindRank extMembers extProtos
  rw [strCompare_eq_intCompare]
  by_cases hname : intCompare (getSortName env b) (getSortName env a) ≠ 0
  · simp [hname]
  · push_neg at hname
    simp only [hname]
    by_cases hva : isValueDeclKind (env.kind a) = true <;>
      by_cases hvb : isValueDeclKind (env.kind b) = true
    · simp [hva, hvb, intCompare]
    · simp [hva, hvb, intCompare]
    · simp [hva, hvb, intCompare]
    · simp only [hva, hvb, if_false, Bool.false_eq_true, false_and, and_false]
      norm_num
      by_cases hm : (env.members a).length = (env.members b).length
      · by_cases hp : (env.localProtocols a).length =
            (env.localProtocols b).length
        · simp [hm, hp, intCompare, protoNameMismatchCompare_eq_zero]
        · simp only [hm, intCompare]
          norm_num
          rcases Nat.lt_trichotomy (env.localProtocols a).length
              (env.localProtocols b).length with h | h | h
          · simp [h, Nat.lt_asymm h]
            try exact fun hcontra => absurd hcontra hp
          · exact absurd h hp
          · simp [h, Nat.lt_asymm h]
            try exact fun hcontra => absurd hcontra hp
      · simp only [intCompare]
        norm_num
        rcases Nat.lt_trichotomy (env.members a).length
            (env.members b).length with h | h | h
        · simp [h, Nat.lt_asymm h]
          try exact fun hcontra => absurd hcontra hm
        · exact absurd h hm
        · simp [h, Nat.lt_asymm h]
          try exact fun hcontra => absurd hcontra hm

/-- Helper: a three-way comparison is negative exactly on `<`. -/
theorem intCompare_neg_iff {α : Type} [LinearOrder α] (x y : α) :
    intCompare x y < 0 ↔ x < y := by
  unfold intCompare
  split_ifs with h1 h2
  · simp [h1]
  · simp [h1]
  · simp [h1]

/-- Helper: a three-way comparison is zero exactly on `=`. -/
theorem intCompare_zero_iff {α : Type} [LinearOrder α] (x y : α) :
    intCompare x y = 0 ↔ x = y := by
  unfold intCompare
  split_ifs with h1 h2
  · simp only [neg_eq_zero, one_ne_zero, false_iff]
    intro h; subst h; exact lt_irrefl _ h1
  · simp only [one_ne_zero, false_iff]
    intro h; subst h; exact lt_irrefl _ h2
  · simp only [true_iff]
    exact le_antisymm (not_lt.mp h2) (not_lt.mp h1)

/-- Helper: a three-way comparison only takes the values -1, 0, 1. -/
theorem intCompare_range {α : Type} [LinearOrder α] (x y : α) :
    intCompare x y = -1 ∨ intCompare x y = 0 ∨ intCompare x y = 1 := by
  unfold intCompare; split_ifs <;> simp

/-- Helper: when a lexicographic composition is negative. -/
theorem ordCompose_neg_iff (x y : Int) (hx : x = -1 ∨ x = 0 ∨ x = 1) :
    ordCompose x y < 0 ↔ (x < 0 ∨ (x = 0 ∧ y < 0)) := by
  unfold ordCompose; rcases hx with h | h | h <;> simp [h]

/-- Helper: when a lexicographic composition is zero. -/
theorem ordCompose_zero_iff (x y : Int) :
    ordCompose x y = 0 ↔ (x = 0 ∧ y = 0) := by
  unfold ordCompose; split_ifs with h
  · simp [h]
  · push_neg at h; simp [h]

/-- Helper: the key comparison is negative exactly when the interpreted
key is smaller. -/
theorem lex4_lt_iff (k1 k2 : String × Nat × Nat × Nat) :
    lex4 k1 k2 < 0 ↔ lexKey k1 < lexKey k2 := by
  unfold lex4 lexKey
  rw [ordCompose_neg_iff _ _ (intCompare_range _ _),
      ordCompose_neg_iff _ _ (intCompare_range _ _),
      ordCompose_neg_iff _ _ (intCompare_range _ _)]
  rw [Prod.Lex.lt_iff, Prod.Lex.lt_iff, Prod.Lex.lt_iff]
  simp [intCompare_neg_iff, intCompare_zero_iff, OrderDual.toDual_lt_toDual, eq_comm]

/-- Helper: the key comparison is zero exactly on equal keys. -/
theorem lex4_zero_iff (k1 k2 : String × Nat × Nat × Nat) :
    lex4 k1 k2 = 0 ↔ k1 = k2 := by
  unfold lex4
  rw [ordCompose_zero_iff, ordCompose_zero_iff, ordCompose_zero_iff]
  simp only [intCompare_zero_iff]
  obtain ⟨a1, b1, c1, d1⟩ := k1
  obtain ⟨a2, b2, c2, d2⟩ := k2
  simp only [Prod.mk.injEq]
  tauto

/-- Helper: a lexicographic composition of small comparisons is small. -/
theorem ordCompose_range (x y : Int) (hx : x = -1 ∨ x = 0 ∨ x = 1)
    (hy : y = -1 ∨ y = 0 ∨ y = 1) :
    ordCompose x y = -1 ∨ ordCompose x y = 0 ∨ ordCompose x y = 1 := by
  unfold ordCompose; split_ifs <;> assumption

/-- Helper: the key comparison only takes the values -1, 0, 1. -/
theorem lex4_range (k1 k2 : String × Nat × Nat × Nat) :
    lex4 k1 k2 = -1 ∨ lex4 k1 k2 = 0 ∨ lex4 k1 k2 = 1 := by
  unfold lex4
  exact ordCompose_range _ _ (intCompare_range _ _)
    (ordCompose_range _ _ (intCompare_range _ _)
      (ordCompose_range _ _ (intCompare_range _ _) (intCompare_range _ _)))

/-- Helper: the interpretation of sort keys is injective. -/
theorem lexKey_inj {k1 k2 : String × Nat × Nat × Nat} (h : lexKey k1 = lexKey k2) :
    k1 = k2 := by
  unfold lexKey at h
  obtain ⟨a1, b1, c1, d1⟩ := k1
  obtain ⟨a2, b2, c2, d2⟩ := k2
  simp only [toLex_inj, Prod.mk.injEq, EmbeddingLike.apply_eq_iff_eq] at h
  obtain ⟨h1, h2, h3, h4⟩ := h
  simp_all

/-- Helper: the key comparison is nonpositive exactly when the
interpreted key is not larger. -/
theorem lex4_le_iff (k1 k2 : String × Nat × Nat × Nat) :
    lex4 k1 k2 ≤ 0 ↔ lexKey k1 ≤ lexKey k2 := by
  constructor
  · intro h
    rcases lex4_range k1 k2 with h0 | h0 | h0
    · exact le_of_lt ((lex4_lt_iff k1 k2).mp (by omega))
    · exact le_of_eq (congrArg lexKey ((lex4_zero_iff k1 k2).mp h0))
    · omega
  · intro h
    rcases lt_or_eq_of_le h with h0 | h0
    · exact le_of_lt ((lex4_lt_iff k1 k2).mpr h0)
    · rw [(lex4_zero_iff k1 k2).mpr (lexKey_inj h0)]

/-- Helper: the sort's boolean `le` is the interpreted key order. -/
theorem sortLE_iff (env : Env) (a b : Nat) :
    sortLE env a b = true ↔ lexKey (declKey env a) ≤ lexKey (declKey env b) := by
  unfold sortLE
  rw [decide_eq_true_eq, cmpDecls_eq_lex4, lex4_le_iff]

/-- Helper: the sort relation is total. -/
theorem sortLE_total (env : Env) (a b : Nat) :
    sortLE env a b = true ∨ sortLE env b a = true := by
  rcases le_total (lexKey (declKey env a)) (lexKey (declKey env b)) with h | h
  · exact Or.inl ((sortLE_iff env a b).mpr h)
  · exact Or.inr ((sortLE_iff env b a).mpr h)

/-- Helper: the sort relation is transitive. -/
theorem sortLE_trans (env : Env) (a b c : Nat)
    (h1 : sortLE env a b = true) (h2 : sortLE env b c = true) :
    sortLE env a c = true :=
  (sortLE_iff env a c).mpr (le_trans ((sortLE_iff env a b).mp h1) ((sortLE_iff env b c).mp h2))

/-- Helper: mutual `le` forces the comparator to report a tie. -/
theorem sortLE_antisymm_cmp (env : Env) (a b : Nat)
    (h1 : sortLE env a b = true) (h2 : sortLE env b a = true) :
    cmpDecls env a b = 0 := by
  have hk := le_antisymm ((sortLE_iff env a b).mp h1) ((sortLE_iff env b a).mp h2)
  rw [cmpDecls_eq_lex4]
  exact (lex4_zero_iff _ _).mpr (lexKey_inj hk)

/-- Helper: ordered insertion permutes. -/
theorem orderedInsertLE_perm (le : Nat → Nat → Bool) (x : Nat) (l : List Nat) :
    (orderedInsertLE le x l).Perm (x :: l) := by
  induction l with
  | nil => exact List.Perm.refl _
  | cons y ys ih =>
    unfold orderedInsertLE
    split_ifs
    · exact List.Perm.refl _
    · exact (ih.cons y).trans (List.Perm.swap x y ys)

/-- Helper: the insertion sort is a permutation. -/
theorem insertionSortLE_perm (le : Nat → Nat → Bool) (l : List Nat) :
    (insertionSortLE le l).Perm l := by
  induction l with
  | nil => exact List.Perm.refl _
  | cons x xs ih => exact (orderedInsertLE_perm le x _).trans (ih.cons x)

/-- Helper: ordered insertion preserves sortedness for a total
transitive relation. -/
theorem orderedInsertLE_pairwise (le : Nat → Nat → Bool)
    (htot : ∀ a b, le a b = true ∨ le b a = true)
    (htrans : ∀ a b c, le a b = true → le b c = true → le a c = true)
    (x : Nat) (l : List Nat) (hl : l.Pairwise (fun a b => le a b = true)) :
    (orderedInsertLE le x l).Pairwise (fun a b => le a b = true) := by
  induction l with
  | nil => simp [orderedInsertLE]
  | cons y ys ih =>
    rcases List.pairwise_cons.mp hl with ⟨hy, hys⟩
    unfold orderedInsertLE
    split_ifs with h
    · refine List.pairwise_cons.mpr ⟨?_, hl⟩
      intro b hb
      rcases List.mem_cons.mp hb with rfl | hb2
      · exact h
      · exact htrans x y b h (hy b hb2)
    · refine List.pairwise_cons.mpr ⟨?_, ih hys⟩
      intro b hb
      have hmem : b = x ∨ b ∈ ys := by
        have hm := (orderedInsertLE_perm le x ys).mem_iff.mp hb
        simpa using hm
      rcases hmem with rfl | hb2
      · rcases htot y b with h2 | h2
        · exact h2
        · exact absurd h2 (by simpa using h)
      · exact hy b hb2

/-- Helper: the insertion sort sorts, for a total transitive relation. -/
theorem insertionSortLE_pairwise (le : Nat → Nat → Bool)
    (htot : ∀ a b, le a b = true ∨ le b a = true)
    (htrans : ∀ a b c, le a b = true → le b c = true → le a c = true)
    (l : List Nat) :
    (insertionSortLE le l).Pairwise (fun a b => le a b = true) := by
  induction l with
  | nil => simp [insertionSortLE]
  | cons x xs ih => exact orderedInsertLE_pairwise le htot htrans x _ ih

/-- Helper: two sorted permutations of each other are equal when the
relation is antisymmetric on their elements. -/
theorem sorted_perm_eq (le : Nat → Nat → Bool) :
    ∀ (l₁ l₂ : List Nat), l₁.Perm l₂ →
    l₁.Pairwise (fun a b => le a b = true) →
    l₂.Pairwise (fun a b => le a b = true) →
    (∀ a ∈ l₁, ∀ b ∈ l₁, le a b = true → le b a = true → a = b) →
    l₁ = l₂ := by
  intro l₁
  induction l₁ with
  | nil =>
    intro l₂ hp _ _ _
    exact hp.nil_eq
  | cons a t ih =>
    intro l₂ hp hs₁ hs₂ hanti
    cases l₂ with
    | nil => exact absurd hp.symm (by simp)
    | cons b u =>
      have ha2 : a ∈ b :: u := hp.mem_iff.mp (List.mem_cons_self a t)
      have hb1 : b ∈ a :: t := hp.mem_iff.mpr (List.mem_cons_self b u)
      have hab : a = b := by
        rcases List.mem_cons.mp ha2 with h | h
        · exact h
        · rcases List.mem_cons.mp hb1 with h2 | h2
          · exact h2.symm
          · have hx1 : le a b = true := (List.pairwise_cons.mp hs₁).1 b h2
            have hx2 : le b a = true := (List.pairwise_cons.mp hs₂).1 a h
            exact hanti a (List.mem_cons_self a t) b hb1 hx1 hx2
      subst hab
      have htail : t.Perm u := (List.perm_cons a).mp hp
      rw [ih u htail (List.pairwise_cons.mp hs₁).2 (List.pairwise_cons.mp hs₂).2
        (fun x hx y hy hxy hyx =>
          hanti x (List.mem_cons_of_mem _ hx) y (List.mem_cons_of_mem _ hy) hxy hyx)]

/-- C8, amended: the emission pass is a pure function of the declaration
set: for any two initial iteration orders of the same set, provided no
two distinct declarations compare as a tie under the sort comparator, the
pass produces identical results — byte-identical output and the
same import set. -/
theorem C8_determinism (env : Env) (tds1 tds2 : List Nat) (fuel : Nat)
    (hperm : tds1.Perm tds2)
    (hnotie : ∀ a ∈ tds1, ∀ b ∈ tds1, cmpDecls env a b = 0 → a = b) :
    write env tds1 fuel = write env tds2 fuel := by
  have hsorteq : sortedTopLevel env tds1 = sortedTopLevel env tds2 := by
    unfold sortedTopLevel
    apply sorted_perm_eq (sortLE env)
    · exact (insertionSortLE_perm _ _).trans
        ((hperm.filter _).trans (insertionSortLE_perm _ _).symm)
    · exact insertionSortLE_pairwise _ (sortLE_total env) (sortLE_trans env) _
    · exact insertionSortLE_pairwise _ (sortLE_total env) (sortLE_trans env) _
    · intro a ha b hb hab hba
      have ha2 : a ∈ tds1 :=
        List.mem_of_mem_filter ((insertionSortLE_perm _ _).mem_iff.mp ha)
      have hb2 : b ∈ tds1 :=
        List.mem_of_mem_filter ((insertionSortLE_perm _ _).mem_iff.mp hb)
      exact hnotie a ha2 b hb2 (sortLE_antisymm_cmp env a b hab hba)
  have hinit : initialWriteState env tds1 = initialWriteState env tds2 := by
    unfold initialWriteState
    rw [hsorteq]
  unfold write
  rw [hinit]

/-- Helper: the two extensions of `C8env` tie under the comparator. -/
theorem C8_cmp_tie : cmpDecls C8env 2 4 = 0 ∧ cmpDecls C8env 4 2 = 0 := by
  rw [cmpDecls_eq_lex4, cmpDecls_eq_lex4]
  exact ⟨(lex4_zero_iff _ _).mpr rfl, (lex4_zero_iff _ _).mpr rfl⟩

/-- C8, counterexample: two distinct extensions with equal sort keys; the
two initial iteration orders `[2, 4]` and `[4, 2]` of the same
declaration set produce different output streams (the tied extensions are
emitted in different orders). -/
theorem C8_counterexample :
    List.Perm [2, 4] [4, 2] ∧
    (write C8env [2, 4] 6).map (fun s => s.out) ≠
      (write C8env [4, 2] 6).map (fun s => s.out) := by
  constructor
  · exact List.Perm.swap 4 2 []
  · have h24 : sortLE C8env 2 4 = true := by
      unfold sortLE
      rw [decide_eq_true_eq, C8_cmp_tie.1]
    have h42 : sortLE C8env 4 2 = true := by
      unfold sortLE
      rw [decide_eq_true_eq, C8_cmp_tie.2]
    have hs1 : sortedTopLevel C8env [2, 4] = [2, 4] := by
      unfold sortedTopLevel
      have hk : [2, 4].filter (keepTopLevel C8env) = [2, 4] := by decide
      rw [hk]
      simp [insertionSortLE, orderedInsertLE, h24]
    have hs2 : sortedTopLevel C8env [4, 2] = [4, 2] := by
      unfold sortedTopLevel
      have hk : [4, 2].filter (keepTopLevel C8env) = [4, 2] := by decide
      rw [hk]
      simp [insertionSortLE, orderedInsertLE, h42]
    unfold write initialWriteState
    rw [hs1, hs2]
    decide

/-- C8, witness: on a tie-free declaration set the pass gives identical
results for two different iteration orders. -/
theorem C8_witness : write C8wenv [1, 2] 4 = write C8wenv [2, 1] 4 := by
  apply C8_determinism C8wenv [1, 2] [2, 1] 4 (List.Perm.swap 2 1 [])
  intro a ha b hb hcmp
  rw [cmpDecls_eq_lex4] at hcmp
  have hk := (lex4_zero_iff _ _).mp hcmp
  simp only [List.mem_cons, List.mem_singleton] at ha hb
  rcases ha with rfl | rfl | h <;> rcases hb with rfl | rfl | h2 <;>
    first
    | rfl
    | (exact absurd hk (by decide))
    | simp_all





theorem seenLE_refl (s : MWState) : seenLE s s := fun _ => le_refl _

theorem seenLE_trans {s t u : MWState} (h1 : seenLE s t) (h2 : seenLE t u) :
    seenLE s u := fun d => le_trans (h1 d) (h2 d)

theorem seenLE_defined {s t : MWState} (h : seenLE s t) (d : Nat)
    (hd : (s.seenTypes d).1 = .Defined) : (t.seenTypes d).1 = .Defined := by
  have := h d
  rw [hd] at this
  cases ht : (t.seenTypes d).1 <;> rw [ht] at this <;> simp [esRank] at this ⊢

theorem EffOK_refl (env : Env) (s : MWState) : EffOK env s s :=
  ⟨seenLE_refl s, fun _ _ => rfl, fun _ => rfl⟩

theorem EffOK_trans {env : Env} {s t u : MWState}
    (h1 : EffOK env s t) (h2 : EffOK env t u) : EffOK env s u :=
  ⟨seenLE_trans h1.1 h2.1,
   fun d hd => (h2.2.1 d hd).trans (h1.2.1 d hd),
   fun d => (h2.2.2 d).trans (h1.2.2 d)⟩

theorem printCount_emitEvent (s : MWState) (ev : OutEvent) (d : Nat)
    (hev : ev ≠ OutEvent.printDecl d) :
    printCount (emitEvent s ev) d = printCount s d := by
  unfold printCount emitEvent
  simp [List.count_append, List.count_singleton, hev]

theorem esRank_le_two (e : EmissionState) : esRank e ≤ 2 := by
  cases e <;> simp [esRank]

theorem seenLE_setSeen (s : MWState) (D : Nat) (v : EmissionState × Bool)
    (hv : esRank (s.seenTypes D).1 ≤ esRank v.1) : seenLE s (setSeen s D v) := by
  intro d
  unfold setSeen
  by_cases h : d = D <;> simp [h]
  subst h; exact hv

theorem EffOK_addImport (env : Env) (s : MWState) (D : Nat) :
    EffOK env s (addImport env s D).2 := by
  simp only [addImport]
  repeat' split
  all_goals exact ⟨fun d => le_refl _, fun d _ => rfl, fun d => rfl⟩

theorem EffOK_tryRequire (env : Env) (s : MWState) (D : Nat) :
    EffOK env s (tryRequire env s D).2 := by
  simp only [tryRequire]
  split_ifs with h
  · refine EffOK_trans (EffOK_addImport env s D) ⟨?_, fun d _ => rfl, fun d => rfl⟩
    exact seenLE_setSeen _ D _ (esRank_le_two _)
  · exact EffOK_addImport env s D

theorem EffOK_require (env : Env) (s : MWState) (D : Nat)
    (hD : ¬isFuncOrExtKind env D) :
    EffOK env s (require env s D).2 := by
  simp only [require]
  split_ifs with h
  · refine EffOK_trans (EffOK_addImport env s D) ⟨?_, fun d _ => rfl, fun d => rfl⟩
    exact seenLE_setSeen _ D _ (esRank_le_two _)
  · refine EffOK_trans (EffOK_addImport env s D) ?_
    have hpush : ∀ h2 : esRank ((addImport env s D).2.seenTypes D).1 ≤ 1,
        EffOK env (addImport env s D).2
          { setSeen (addImport env s D).2 D
              (EmissionState.DefinitionRequested, ((addImport env s D).2.seenTypes D).2) with
            declsToWrite := D :: (setSeen (addImport env s D).2 D
              (EmissionState.DefinitionRequested,
                ((addImport env s D).2.seenTypes D).2)).declsToWrite } := by
      intro h2
      refine ⟨?_, ?_, fun d => rfl⟩
      · intro d
        by_cases hdD : d = D
        · subst hdD; simpa [setSeen, esRank] using h2
        · simp [setSeen, hdD]
      · intro d hd
        have hne : ¬D = d := fun hdd => hD (hdd ▸ hd)
        simp [setSeen, List.count_cons, hne]
    split
    · exact hpush (by rename_i heq; rw [heq]; simp [esRank])
    · exact hpush (by rename_i heq; rw [heq]; simp [esRank])
    · exact EffOK_refl env _

theorem EffOK_forwardDeclareNTD (env : Env) (s : MWState) (NTD : Nat) (ev : OutEvent)
    (hev : ∀ d, ev ≠ OutEvent.printDecl d) :
    EffOK env s (forwardDeclareNTD env s NTD ev) := by
  unfold forwardDeclareNTD
  split_ifs with h1 h2
  · exact EffOK_refl env s
  · exact EffOK_refl env s
  · refine ⟨?_, fun d _ => rfl, fun d => printCount_emitEvent s ev d (hev d)⟩
    intro d
    by_cases hdD : d = NTD
    · subst hdD; simp [setSeen, emitEvent]
    · simp [setSeen, emitEvent, hdD]

theorem EffOK_emitRCTM (env : Env) (s : MWState) (d0 : Nat) :
    EffOK env s (emitReferencedClangTypeMetadata env s d0) := by
  unfold emitReferencedClangTypeMetadata
  split_ifs with h
  · exact EffOK_refl env s
  · exact ⟨fun d => le_refl _, fun d _ => rfl,
      fun d => by simp [printCount, emitEvent, List.count_append]⟩

theorem EffOK_forwardDeclareType (env : Env) (s : MWState) (TD : Nat) :
    EffOK env s (forwardDeclareType env s TD) := by
  unfold forwardDeclareType forwardDeclareClass forwardDeclareProtocol forwardDeclareEnum
    forwardDeclareCxxValueTypeIfNeeded
  repeat' split
  all_goals
    first
    | exact EffOK_refl env s
    | exact EffOK_addImport env s TD
    | exact EffOK_forwardDeclareNTD env s TD _ (fun d => by simp)
    | exact EffOK_trans (EffOK_addImport env s TD) (EffOK_emitRCTM env _ TD)
    | exact EffOK_trans (EffOK_addImport env s TD)
        (EffOK_forwardDeclareNTD env _ TD _ (fun d => by simp))
    | exact EffOK_trans
        (EffOK_forwardDeclareNTD env s TD _ (fun d => by simp))
        (EffOK_addImport env _ TD)

theorem EffOK_processMemberRef (env : Env) (container : Nat) (a : FDMTAcc)
    (r : Nat × Bool) :
    EffOK env a.s (processMemberRef env container a r).s := by
  simp only [processMemberRef]
  repeat' split
  all_goals
    first
    | exact EffOK_refl env a.s
    | exact EffOK_forwardDeclareType env a.s _
    | exact EffOK_tryRequire env a.s _
    | (apply EffOK_require env a.s _
       intro hcontra
       rcases hcontra with h | h <;> simp_all [isNominalKind])

theorem EffOK_processMember (env : Env) (container : Nat)
    (st : MWState × Bool × List Nat) (m : Nat) :
    EffOK env st.1 (processMember env container st m).1 := by
  obtain ⟨s, had, nested⟩ := st
  have hfold : ∀ (refs : List (Nat × Bool)) (a : FDMTAcc),
      EffOK env a.s (refs.foldl (processMemberRef env container) a).s := by
    intro refs
    induction refs with
    | nil => intro a; exact EffOK_refl env a.s
    | cons r rest ih =>
      intro a
      exact EffOK_trans (EffOK_processMemberRef env container a r)
        (ih (processMemberRef env container a r))
  simp only [processMember]
  split_ifs with h1 h2 h3 h4
  any_goals exact EffOK_refl env s
  all_goals
    exact ⟨(hfold (referencedTypeFinderWalk env (env.interfaceType m)) ⟨s, had, false⟩).1,
           (hfold (referencedTypeFinderWalk env (env.interfaceType m)) ⟨s, had, false⟩).2.1,
           (hfold (referencedTypeFinderWalk env (env.interfaceType m)) ⟨s, had, false⟩).2.2⟩

theorem collectNestedTypes_kinds (env : Env) (ms : List Nat) (d : Nat)
    (hd : d ∈ collectNestedTypes env ms) : isTypeDeclKind (env.kind d) = true := by
  unfold collectNestedTypes at hd
  have hf := List.of_mem_filter hd
  simp only [Bool.and_eq_true] at hf
  exact hf.1.2

theorem count_insertBelowTop (stack xs : List Nat) (d : Nat) :
    (insertBelowTop stack xs).count d = stack.count d + xs.count d := by
  unfold insertBelowTop
  cases stack with
  | nil => simp
  | cons t rest => simp [List.count_cons, List.count_append]; ring

theorem EffOK_fdmt (env : Env) (s : MWState) (ms : List Nat) (container : Nat) :
    EffOK env s (forwardDeclareMemberTypes env s ms container).2 := by
  have hfold : ∀ (l : List Nat) (st : MWState × Bool × List Nat),
      EffOK env st.1 (l.foldl (processMember env container) st).1 := by
    intro l
    induction l with
    | nil => intro st; exact EffOK_refl env st.1
    | cons m rest ih =>
      intro st
      exact EffOK_trans (EffOK_processMember env container st m)
        (ih (processMember env container st m))
  unfold forwardDeclareMemberTypes
  refine EffOK_trans (hfold ms (s, false, [])) ⟨fun d => le_refl _, ?_, fun d => rfl⟩
  intro d hd
  simp only [count_insertBelowTop]
  have hzero : (ms.foldl (processMember env container) (s, false, [])).2.2.count d = 0 := by
    rw [fold_nested]
    simp only [List.nil_append]
    rw [List.count_eq_zero]
    intro hmem
    have := collectNestedTypes_kinds env ms d hmem
    rcases hd with h | h <;> rw [h] at this <;> simp [isTypeDeclKind] at this
  rw [fold_nested] at hzero ⊢
  simp only [List.nil_append] at hzero ⊢
  omega

theorem EffOK_requireList_aux (env : Env) :
    ∀ (l : List Nat), (∀ p ∈ l, ¬isFuncOrExtKind env p) → ∀ (acc : Bool × MWState),
      EffOK env acc.2 (l.foldl (fun (acc : Bool × MWState) p =>
        (acc.1 && (require env acc.2 p).1, (require env acc.2 p).2)) acc).2 := by
  intro l
  induction l with
  | nil => intro _ acc; exact EffOK_refl env acc.2
  | cons p rest ih =>
    intro hl acc
    simp only [List.foldl_cons]
    exact EffOK_trans (EffOK_require env acc.2 p (hl p (List.mem_cons_self p rest)))
      (ih (fun q hq => hl q (List.mem_cons_of_mem p hq))
        (acc.1 && (require env acc.2 p).1, (require env acc.2 p).2))

theorem EffOK_requireList (env : Env) (s : MWState) (l : List Nat)
    (hl : ∀ p ∈ l, ¬isFuncOrExtKind env p) :
    EffOK env s (requireList env s l).2 := by
  unfold requireList
  exact EffOK_requireList_aux env l hl (true, s)



theorem addImport_seenTypes (env : Env) (s : MWState) (D : Nat) :
    (addImport env s D).2.seenTypes = s.seenTypes := by
  simp only [addImport]
  repeat' split
  all_goals rfl

theorem printCount_emit_print_self (s : MWState) (D : Nat) :
    printCount (emitEvent s (.printDecl D)) D = printCount s D + 1 := by
  simp [printCount, emitEvent, List.count_append]

theorem printCount_emit_print_other (s : MWState) (D d : Nat) (h : d ≠ D) :
    printCount (emitEvent s (.printDecl D)) d = printCount s d := by
  apply printCount_emitEvent
  simp [h.symm]

theorem printCount_emit_newline (s : MWState) (d : Nat) :
    printCount (emitEvent s .newline) d = printCount s d := by
  apply printCount_emitEvent
  simp

theorem printCount_setSeen (s : MWState) (D : Nat) (v : EmissionState × Bool) (d : Nat) :
    printCount (setSeen s D v) d = printCount s d := rfl

theorem EffOK_classRequirements (env : Env) (s0 : MWState) (CD : Nat)
    (hsup : ∀ c, env.superclass CD = some c → env.kind c = .classKind)
    (hlocal : ∀ p, p ∈ env.localProtocols CD → env.kind p = .protocolKind) :
    EffOK env s0 (classRequirements env s0 CD).2 := by
  simp only [classRequirements]
  refine EffOK_trans (t := (match env.superclass CD with
      | some superDecl => require env s0 superDecl
      | none => (true, s0)).2) ?_ ?_
  · cases hsc : env.superclass CD with
    | none => exact EffOK_refl env _
    | some c =>
      refine EffOK_require env _ c ?_
      intro hcontra
      rcases hcontra with h | h <;> rw [hsup c hsc] at h <;> cases h
  · split_ifs with h4
    · refine EffOK_requireList env _ _ ?_
      intro p hp hcontra
      have hkp := hlocal p (List.mem_of_mem_filter hp)
      rcases hcontra with h | h <;> rw [hkp] at h <;> cases h
    · exact EffOK_refl env _

theorem EffOK_extensionRequirements (env : Env) (s : MWState) (ED : Nat)
    (hself : ∀ c, env.selfClassDecl ED = some c → env.kind c = .classKind)
    (hlocal : ∀ p, p ∈ env.localProtocols ED → env.kind p = .protocolKind) :
    EffOK env s (extensionRequirements env s ED).2 := by
  simp only [extensionRequirements]
  refine EffOK_trans (t := (match env.selfClassDecl ED with
      | some CD => require env s CD
      | none => (true, s)).2) ?_ ?_
  · cases hsc : env.selfClassDecl ED with
    | none => exact EffOK_refl env _
    | some c =>
      refine EffOK_require env _ c ?_
      intro hcontra
      rcases hcontra with h | h <;> rw [hself c hsc] at h <;> cases h
  · refine EffOK_requireList env _ _ ?_
    intro p hp hcontra
    have hkp := hlocal p (List.mem_of_mem_filter hp)
    rcases hcontra with h | h <;> rw [hkp] at h <;> cases h

theorem seenLE_emit_emit_setSeen_defined (s3 : MWState) (D : Nat) (ev1 ev2 : OutEvent) :
    seenLE s3 (emitEvent (emitEvent (setSeen s3 D (.Defined, true)) ev1) ev2) := by
  intro d
  by_cases hdD : d = D
  · subst hdD
    have hdef : ((emitEvent (emitEvent (setSeen s3 d (EmissionState.Defined, true)) ev1)
        ev2).seenTypes d).1 = EmissionState.Defined := by
      simp [emitEvent, setSeen]
    rw [hdef]
    exact le_trans (esRank_le_two _) (by simp [esRank])
  · simp [emitEvent, setSeen, hdD]

theorem tryRequire_declsToWrite (env : Env) (s : MWState) (D : Nat) :
    (tryRequire env s D).2.declsToWrite = s.declsToWrite := by
  simp only [tryRequire]
  split_ifs with h1
  · rw [setSeen_declsToWrite, addImport_declsToWrite]
  · rw [addImport_declsToWrite]

theorem require_true_declsToWrite (env : Env) (s : MWState) (D : Nat)
    (h : (require env s D).1 = true) :
    (require env s D).2.declsToWrite = s.declsToWrite := by
  simp only [require] at h ⊢
  split_ifs at h ⊢ with h1
  · rw [setSeen_declsToWrite, addImport_declsToWrite]
  · rcases hst : ((addImport env s D).2.seenTypes D).1 with _ | _ | _ <;>
      simp only [hst] at h ⊢
    · cases h
    · cases h
    · rw [addImport_declsToWrite]

theorem requireList_fold_first_mono (env : Env) :
    ∀ (l : List Nat) (acc : Bool × MWState),
    (l.foldl (fun (acc : Bool × MWState) p =>
      (acc.1 && (require env acc.2 p).1, (require env acc.2 p).2)) acc).1 = true →
    acc.1 = true := by
  intro l
  induction l with
  | nil => intro acc h; exact h
  | cons p rest ih =>
    intro acc h
    have h2 := ih _ h
    simp only [Bool.and_eq_true] at h2
    exact h2.1

theorem requireList_true_declsToWrite (env : Env) :
    ∀ (l : List Nat) (acc : Bool × MWState),
    (l.foldl (fun (acc : Bool × MWState) p =>
      (acc.1 && (require env acc.2 p).1, (require env acc.2 p).2)) acc).1 = true →
    (l.foldl (fun (acc : Bool × MWState) p =>
      (acc.1 && (require env acc.2 p).1, (require env acc.2 p).2)) acc).2.declsToWrite =
      acc.2.declsToWrite := by
  intro l
  induction l with
  | nil => intro acc _; rfl
  | cons p rest ih =>
    intro acc h
    simp only [List.foldl_cons] at h ⊢
    have hstep := requireList_fold_first_mono env rest _ h
    simp only [Bool.and_eq_true] at hstep
    have hreq : (require env acc.2 p).1 = true := hstep.2
    rw [ih _ h]
    exact require_true_declsToWrite env acc.2 p hreq

theorem processMemberRef_had_mono (env : Env) (c : Nat) (a : FDMTAcc) (r : Nat × Bool)
    (h : a.hadAnyDelayedMembers = true) :
    (processMemberRef env c a r).hadAnyDelayedMembers = true := by
  simp only [processMemberRef]
  repeat' split
  all_goals simp [h]

theorem processMemberRef_not_delayed (env : Env) (c : Nat) (a : FDMTAcc) (r : Nat × Bool)
    (h : (processMemberRef env c a r).hadAnyDelayedMembers = false) :
    (processMemberRef env c a r).s.declsToWrite = a.s.declsToWrite := by
  simp only [processMemberRef] at h ⊢
  split_ifs at h ⊢ with h1 h2 h3 h4 h5 h6 h7
  all_goals
    first
    | rfl
    | exact fdt_declsToWrite env a.s _
    | exact tryRequire_declsToWrite env a.s _
    | (exact require_true_declsToWrite env a.s _ (by assumption))
    | cases h

theorem foldRefs_not_delayed (env : Env) (c : Nat) :
    ∀ (refs : List (Nat × Bool)) (a : FDMTAcc),
    (refs.foldl (processMemberRef env c) a).hadAnyDelayedMembers = false →
    (refs.foldl (processMemberRef env c) a).s.declsToWrite = a.s.declsToWrite ∧
      a.hadAnyDelayedMembers = false := by
  intro refs
  induction refs with
  | nil => intro a h; exact ⟨rfl, h⟩
  | cons r rest ih =>
    intro a h
    rw [List.foldl_cons] at h ⊢
    obtain ⟨hstk, hhad⟩ := ih _ h
    by_cases hc : a.hadAnyDelayedMembers = true
    · exact absurd (processMemberRef_had_mono env c a r hc) (by rw [hhad]; simp)
    · refine ⟨?_, by revert hc; cases a.hadAnyDelayedMembers <;> simp⟩
      rw [hstk, processMemberRef_not_delayed env c a r hhad]

theorem processMember_had_mono (env : Env) (c : Nat)
    (st : MWState × Bool × List Nat) (m : Nat)
    (h : st.2.1 = true) : (processMember env c st m).2.1 = true := by
  obtain ⟨s, had, nested⟩ := st
  simp only at h
  have hfold : ∀ (refs : List (Nat × Bool)) (a : FDMTAcc),
      a.hadAnyDelayedMembers = true →
      (refs.foldl (processMemberRef env c) a).hadAnyDelayedMembers = true := by
    intro refs
    induction refs with
    | nil => intro a ha; exact ha
    | cons r rest ih =>
      intro a ha
      exact ih _ (processMemberRef_had_mono env c a r ha)
  simp only [processMember]
  split_ifs with h1 h2 h3 h4
  · exact h
  · exact h
  · exact h
  all_goals exact hfold _ ⟨s, had, false⟩ h

theorem processMember_not_delayed (env : Env) (c : Nat)
    (st : MWState × Bool × List Nat) (m : Nat)
    (h : (processMember env c st m).2.1 = false) :
    (processMember env c st m).1.declsToWrite = st.1.declsToWrite ∧ st.2.1 = false := by
  obtain ⟨s, had, nested⟩ := st
  simp only [processMember] at h ⊢
  split_ifs at h ⊢ with h1 h2 h3 h4
  · exact ⟨rfl, h⟩
  · exact ⟨rfl, h⟩
  · exact ⟨rfl, h⟩
  all_goals
    obtain ⟨hstk, hhad⟩ :=
      foldRefs_not_delayed env c (referencedTypeFinderWalk env (env.interfaceType m))
        ⟨s, had, false⟩ h
  · exact ⟨hstk, hhad⟩
  · exact ⟨hstk, hhad⟩

theorem foldMembers_not_delayed (env : Env) (c : Nat) :
    ∀ (ms : List Nat) (st : MWState × Bool × List Nat),
    (ms.foldl (processMember env c) st).2.1 = false →
    (ms.foldl (processMember env c) st).1.declsToWrite = st.1.declsToWrite ∧
      st.2.1 = false := by
  intro ms
  induction ms with
  | nil => intro st h; exact ⟨rfl, h⟩
  | cons m rest ih =>
    intro st h
    rw [List.foldl_cons] at h ⊢
    obtain ⟨hstk, hhad⟩ := ih _ h
    obtain ⟨hstk2, hhad2⟩ := processMember_not_delayed env c st m hhad
    exact ⟨hstk.trans hstk2, hhad2⟩

theorem fdmt_true_declsToWrite (env : Env) (s : MWState) (ms : List Nat) (c : Nat)
    (h : (forwardDeclareMemberTypes env s ms c).1 = true) :
    (forwardDeclareMemberTypes env s ms c).2.declsToWrite =
      insertBelowTop s.declsToWrite (collectNestedTypes env ms) := by
  simp only [forwardDeclareMemberTypes] at h ⊢
  simp only [Bool.not_eq_true'] at h
  obtain ⟨hstk, _⟩ := foldMembers_not_delayed env c ms (s, false, []) h
  rw [hstk, fold_nested]
  simp

theorem requireList_true_stack (env : Env) (s : MWState) (l : List Nat)
    (h : (requireList env s l).1 = true) :
    (requireList env s l).2.declsToWrite = s.declsToWrite := by
  unfold requireList at h ⊢
  exact requireList_true_declsToWrite env l (true, s) h

theorem extensionRequirements_true_declsToWrite (env : Env) (s : MWState) (ED : Nat)
    (h : (extensionRequirements env s ED).1 = true) :
    (extensionRequirements env s ED).2.declsToWrite = s.declsToWrite := by
  simp only [extensionRequirements] at h ⊢
  simp only [Bool.and_eq_true] at h
  cases hsc : env.selfClassDecl ED with
  | none =>
    simp only [hsc] at h ⊢
    exact requireList_true_stack env s _ h.2
  | some c =>
    simp only [hsc] at h ⊢
    rw [requireList_true_stack env _ _ h.2]
    exact require_true_declsToWrite env s c h.1

theorem fdtFold_declsToWrite (env : Env) :
    ∀ (refs : List (Nat × Bool)) (t : MWState),
    (refs.foldl (fun st r => forwardDeclareType env st r.1) t).declsToWrite =
      t.declsToWrite := by
  intro refs
  induction refs with
  | nil => intro t; rfl
  | cons r rest ih =>
    intro t
    rw [List.foldl_cons, ih, fdt_declsToWrite]

theorem writeClass_effects (env : Env) (s : MWState) (CD : Nat)
    (hk : env.kind CD = .classKind)
    (hsup : ∀ c, env.superclass CD = some c → env.kind c = .classKind)
    (hlocal : ∀ p, p ∈ env.localProtocols CD → env.kind p = .protocolKind) :
    WriterOK env CD s (writeClass env s CD) := by
  have hbase := EffOK_addImport env s CD
  simp only [writeClass]
  split_ifs with h1 h2 h3
  · exact Or.inl hbase
  · exact Or.inl hbase
  · exact Or.inl (EffOK_trans hbase (EffOK_classRequirements env _ CD hsup hlocal))
  · right
    have heff3 : EffOK env s
        (forwardDeclareMemberTypes env (classRequirements env (addImport env s CD).2 CD).2
          (env.members CD) CD).2 :=
      EffOK_trans hbase
        (EffOK_trans (EffOK_classRequirements env _ CD hsup hlocal)
          (EffOK_fdmt env _ (env.members CD) CD))
    refine ⟨rfl, ?_, ?_, ?_, ?_, ?_, ?_⟩
    · exact seenLE_trans heff3.1 (seenLE_emit_emit_setSeen_defined _ CD _ _)
    · intro d hd
      have h5 := heff3.2.1 d hd
      simpa [emitEvent, setSeen] using h5
    · intro d hd
      rw [printCount_emit_print_other _ _ _ hd, printCount_emit_newline,
        printCount_setSeen]
      exact heff3.2.2 d
    · rw [printCount_emit_print_self, printCount_emit_newline, printCount_setSeen]
      rw [heff3.2.2 CD]
    · intro _
      refine ⟨?_, by simp [emitEvent, setSeen]⟩
      rw [← addImport_seenTypes env s CD]
      exact h2
    · intro hfe
      rcases hfe with h | h <;> rw [hk] at h <;> cases h

theorem writeProtocol_effects (env : Env) (s : MWState) (PD : Nat)
    (hk : env.kind PD = .protocolKind)
    (hinh : ∀ p, p ∈ env.inheritedProtocols PD → env.kind p = .protocolKind) :
    WriterOK env PD s (writeProtocol env s PD) := by
  have hbase := EffOK_addImport env s PD
  have hreq : EffOK env s (requireList env (addImport env s PD).2
      ((env.inheritedProtocols PD).filter env.shouldInclude)).2 := by
    refine EffOK_trans hbase (EffOK_requireList env _ _ ?_)
    intro p hp hcontra
    have hkp := hinh p (List.mem_of_mem_filter hp)
    rcases hcontra with h | h <;> rw [hkp] at h <;> cases h
  have hfd : EffOK env s (forwardDeclareMemberTypes env
      (requireList env (addImport env s PD).2
        ((env.inheritedProtocols PD).filter env.shouldInclude)).2
      (env.members PD) PD).2 :=
    EffOK_trans hreq (EffOK_fdmt env _ (env.members PD) PD)
  simp only [writeProtocol]
  split_ifs with h1 h2 h3 h4
  · exact Or.inl hbase
  · exact Or.inl hbase
  · exact Or.inl hreq
  · exact Or.inl hfd
  · right
    refine ⟨rfl, ?_, ?_, ?_, ?_, ?_, ?_⟩
    · exact seenLE_trans hfd.1 (seenLE_emit_emit_setSeen_defined _ PD _ _)
    · intro d hd
      have h5 := hfd.2.1 d hd
      simpa [emitEvent, setSeen] using h5
    · intro d hd
      rw [printCount_emit_print_other _ _ _ hd, printCount_emit_newline,
        printCount_setSeen]
      exact hfd.2.2 d
    · rw [printCount_emit_print_self, printCount_emit_newline, printCount_setSeen]
      rw [hfd.2.2 PD]
    · intro _
      refine ⟨?_, by simp [emitEvent, setSeen]⟩
      rw [← addImport_seenTypes env s PD]
      exact h2
    · intro hfe
      rcases hfe with h | h <;> rw [hk] at h <;> cases h

theorem printCount_emit_errorDomain (s : MWState) (e d : Nat) :
    printCount (emitEvent s (.errorDomain e)) d = printCount s d := by
  apply printCount_emitEvent
  simp

theorem writeEnum_effects (env : Env) (s : MWState) (ED : Nat)
    (hk : env.kind ED = .enumKind) :
    WriterOK env ED s (writeEnum env s ED) := by
  have hbase := EffOK_addImport env s ED
  have hs1eff : EffOK env s (if env.outputLangMode = OutputLanguageMode.Cxx then
      forwardDeclareCxxValueTypeIfNeeded env
        (forwardDeclareMemberTypes env (addImport env s ED).2 (env.members ED) ED).2 ED
    else (addImport env s ED).2) := by
    split_ifs with hmode
    · exact EffOK_trans hbase (EffOK_trans (EffOK_fdmt env _ (env.members ED) ED)
        (EffOK_forwardDeclareNTD env _ ED _ (fun d => by simp)))
    · exact hbase
  simp only [writeEnum]
  set s1 := (if env.outputLangMode = OutputLanguageMode.Cxx then
      forwardDeclareCxxValueTypeIfNeeded env
        (forwardDeclareMemberTypes env (addImport env s ED).2 (env.members ED) ED).2 ED
    else (addImport env s ED).2) with hs1def
  have hseen2 : ∀ ev : OutEvent,
      seenLE s (emitEvent (setSeen s1 ED (EmissionState.Defined, true)) ev) := by
    intro ev
    refine seenLE_trans hs1eff.1 ?_
    intro d
    by_cases hdD : d = ED
    · subst hdD
      have hdef : ((emitEvent (setSeen s1 d (EmissionState.Defined, true))
          ev).seenTypes d).1 = EmissionState.Defined := by
        simp [emitEvent, setSeen]
      rw [hdef]
      exact le_trans (esRank_le_two _) (by simp [esRank])
    · simp [emitEvent, setSeen, hdD]
  split_ifs with h1 h2 h3
  · exact Or.inl hbase
  · exact Or.inl hs1eff
  · -- print, then error-domain string
    right
    refine ⟨rfl, ?_, ?_, ?_, ?_, ?_, ?_⟩
    · refine seenLE_trans (hseen2 (.printDecl ED)) ?_
      intro d
      simp [emitEvent]
    · intro d hd
      have h5 := hs1eff.2.1 d hd
      simpa [emitEvent, setSeen] using h5
    · intro d hd
      rw [printCount_emit_errorDomain, printCount_emit_print_other _ _ _ hd,
        printCount_setSeen]
      exact hs1eff.2.2 d
    · rw [printCount_emit_errorDomain, printCount_emit_print_self, printCount_setSeen]
      rw [hs1eff.2.2 ED]
    · intro _
      refine ⟨?_, by simp [emitEvent, setSeen]⟩
      intro hcontra
      exact h2 (seenLE_defined hs1eff.1 ED hcontra)
    · intro hfe
      rcases hfe with h | h <;> rw [hk] at h <;> cases h
  · right
    refine ⟨rfl, ?_, ?_, ?_, ?_, ?_, ?_⟩
    · exact hseen2 (.printDecl ED)
    · intro d hd
      have h5 := hs1eff.2.1 d hd
      simpa [emitEvent, setSeen] using h5
    · intro d hd
      rw [printCount_emit_print_other _ _ _ hd, printCount_setSeen]
      exact hs1eff.2.2 d
    · rw [printCount_emit_print_self, printCount_setSeen]
      rw [hs1eff.2.2 ED]
    · intro _
      refine ⟨?_, by simp [emitEvent, setSeen]⟩
      intro hcontra
      exact h2 (seenLE_defined hs1eff.1 ED hcontra)
    · intro hfe
      rcases hfe with h | h <;> rw [hk] at h <;> cases h

theorem writeFunc_effects (env : Env) (s : MWState) (FD : Nat)
    (hk : env.kind FD = .funcKind) :
    WriterOK env FD s (writeFunc env s FD) := by
  have hbase := EffOK_addImport env s FD
  have hfold : ∀ (refs : List (Nat × Bool)) (t : MWState), EffOK env t
      (refs.foldl (fun st r => forwardDeclareType env st r.1) t) := by
    intro refs
    induction refs with
    | nil => intro t; exact EffOK_refl env t
    | cons r rest ih =>
      intro t
      exact EffOK_trans (EffOK_forwardDeclareType env t r.1) (ih _)
  have heff : EffOK env s ((referencedTypeFinderWalk env (env.interfaceType FD)).foldl
      (fun st r => forwardDeclareType env st r.1) (addImport env s FD).2) :=
    EffOK_trans hbase (hfold _ _)
  simp only [writeFunc]
  split_ifs with h1
  · exact Or.inl hbase
  · right
    refine ⟨rfl, ?_, ?_, ?_, ?_, ?_, ?_⟩
    · refine seenLE_trans heff.1 ?_
      intro d
      simp [emitEvent]
    · intro d hd
      have h5 := heff.2.1 d hd
      simpa [emitEvent] using h5
    · intro d hd
      rw [printCount_emit_print_other _ _ _ hd, printCount_emit_newline]
      exact heff.2.2 d
    · rw [printCount_emit_print_self, printCount_emit_newline]
      rw [heff.2.2 FD]
    · intro hg
      rcases hg with h | h | h <;> rw [hk] at h <;> cases h
    · intro _
      left
      rw [emitEvent_declsToWrite, emitEvent_declsToWrite, fdtFold_declsToWrite,
        addImport_declsToWrite]

theorem writeExtension_effects (env : Env) (s : MWState) (ED : Nat)
    (hk : env.kind ED = .extensionKind)
    (hself : ∀ c, env.selfClassDecl ED = some c → env.kind c = .classKind)
    (hlocal : ∀ p, p ∈ env.localProtocols ED → env.kind p = .protocolKind) :
    WriterOK env ED s (writeExtension env s ED) := by
  have hreq := EffOK_extensionRequirements env s ED hself hlocal
  have hfd : EffOK env s (forwardDeclareMemberTypes env
      (extensionRequirements env s ED).2 (env.members ED) ED).2 :=
    EffOK_trans hreq (EffOK_fdmt env _ (env.members ED) ED)
  simp only [writeExtension]
  split_ifs with h1 h2 h3
  · exact Or.inl (EffOK_refl env s)
  · exact Or.inl hreq
  · exact Or.inl hfd
  · right
    refine ⟨rfl, ?_, ?_, ?_, ?_, ?_, ?_⟩
    · refine seenLE_trans hfd.1 ?_
      intro d
      simp [emitEvent]
    · intro d hd
      have h5 := hfd.2.1 d hd
      simpa [emitEvent] using h5
    · intro d hd
      rw [printCount_emit_print_other _ _ _ hd, printCount_emit_newline]
      exact hfd.2.2 d
    · rw [printCount_emit_print_self, printCount_emit_newline]
      rw [hfd.2.2 ED]
    · intro hg
      rcases hg with h | h | h <;> rw [hk] at h <;> cases h
    · intro _
      right
      have hrq : (extensionRequirements env s ED).1 = true := by
        revert h2
        cases (extensionRequirements env s ED).1 <;> simp
      have hfdt : (forwardDeclareMemberTypes env (extensionRequirements env s ED).2
          (env.members ED) ED).1 = true := by
        revert h3
        cases (forwardDeclareMemberTypes env (extensionRequirements env s ED).2
          (env.members ED) ED).1 <;> simp
      rw [emitEvent_declsToWrite, emitEvent_declsToWrite,
        fdmt_true_declsToWrite env _ (env.members ED) ED hfdt,
        extensionRequirements_true_declsToWrite env s ED hrq]

theorem stepDecl_effects (env : Env) (s : MWState) (D : Nat)
    (hmode : env.outputLangMode = .ObjC)
    (hsup : ∀ d c, env.superclass d = some c → env.kind c = .classKind)
    (hlocal : ∀ d p, p ∈ env.localProtocols d → env.kind p = .protocolKind)
    (hinh : ∀ d p, p ∈ env.inheritedProtocols d → env.kind p = .protocolKind)
    (hself : ∀ d c, env.selfClassDecl d = some c → env.kind c = .classKind) :
    WriterOK env D s (stepDecl env s D) ∧
      (¬(guardedKind env D ∨ isFuncOrExtKind env D) →
        EffOK env s (stepDecl env s D).2) := by
  unfold stepDecl
  rw [hmode]
  simp only [show (OutputLanguageMode.ObjC = OutputLanguageMode.Cxx) ↔ False from by simp,
    if_false]
  split_ifs with h1 h2 h3 h4 h5 h6
  · exact ⟨writeEnum_effects env s D h1,
      fun hng => absurd (Or.inl (Or.inr (Or.inr h1))) hng⟩
  · exact ⟨writeClass_effects env s D h2 (hsup D) (hlocal D),
      fun hng => absurd (Or.inl (Or.inl h2)) hng⟩
  · exact ⟨writeProtocol_effects env s D h4 (hinh D),
      fun hng => absurd (Or.inl (Or.inr (Or.inl h4))) hng⟩
  · exact ⟨writeFunc_effects env s D h5,
      fun hng => absurd (Or.inr (Or.inl h5)) hng⟩
  · exact ⟨Or.inl (EffOK_refl env s), fun _ => EffOK_refl env s⟩
  · exact ⟨writeExtension_effects env s D h6 (hself D) (hlocal D),
      fun hng => absurd (Or.inr (Or.inr h6)) hng⟩
  · exact ⟨Or.inl (EffOK_refl env s), fun _ => EffOK_refl env s⟩

theorem count_tail_le (l : List Nat) (d : Nat) : l.tail.count d ≤ l.count d := by
  cases l with
  | nil => simp
  | cons x xs =>
    simp only [List.tail_cons, List.count_cons]
    split <;> omega


theorem printCount_pop (s1 : MWState) (t : List Nat) (d : Nat) :
    printCount { emitEvent s1 .newline with declsToWrite := t } d = printCount s1 d := by
  simp [printCount, emitEvent]

theorem declsToWrite_pop (s1 : MWState) (t : List Nat) :
    ({ emitEvent s1 .newline with declsToWrite := t } : MWState).declsToWrite = t := rfl

theorem C4Inv_EffOK {env : Env} {s t : MWState} (heff : EffOK env s t)
    (hinv : C4Inv env s) : C4Inv env t := by
  obtain ⟨hA, hB, hC⟩ := hinv
  obtain ⟨hseen, hcnt, hpc⟩ := heff
  refine ⟨?_, ?_, ?_⟩
  · intro d
    rw [hpc d]
    exact hA d
  · intro d hg h1
    rw [hpc d] at h1
    exact seenLE_defined hseen d (hB d hg h1)
  · intro d hdf
    rw [hpc d, hcnt d hdf]
    exact hC d hdf

theorem C4Inv_pop_EffOK {env : Env} {s s1 : MWState} (heff : EffOK env s s1)
    (hinv : C4Inv env s) :
    C4Inv env { emitEvent s1 .newline with declsToWrite := s1.declsToWrite.tail } := by
  obtain ⟨hA, hB, hC⟩ := C4Inv_EffOK heff hinv
  refine ⟨?_, ?_, ?_⟩
  · intro d
    rw [printCount_pop]
    exact hA d
  · intro d hg h1
    rw [printCount_pop] at h1
    exact hB d hg h1
  · intro d hdf
    rw [printCount_pop, declsToWrite_pop]
    have h2 := count_tail_le s1.declsToWrite d
    have h3 := hC d hdf
    omega

theorem C4Inv_step (env : Env) (s : MWState) (D : Nat) (rest : List Nat)
    (hmode : env.outputLangMode = .ObjC)
    (hsup : ∀ d c, env.superclass d = some c → env.kind c = .classKind)
    (hlocal : ∀ d p, p ∈ env.localProtocols d → env.kind p = .protocolKind)
    (hinh : ∀ d p, p ∈ env.inheritedProtocols d → env.kind p = .protocolKind)
    (hself : ∀ d c, env.selfClassDecl d = some c → env.kind c = .classKind)
    (hstack : s.declsToWrite = D :: rest)
    (hinv : C4Inv env s) :
    C4Inv env (if (stepDecl env s D).1 then
      { emitEvent (stepDecl env s D).2 .newline with
          declsToWrite := (stepDecl env s D).2.declsToWrite.tail }
      else (stepDecl env s D).2) := by
  obtain ⟨hW, hng⟩ := stepDecl_effects env s D hmode hsup hlocal hinh hself
  by_cases hgf : guardedKind env D ∨ isFuncOrExtKind env D
  case neg =>
    have heff := hng hgf
    split_ifs with hsucc
    · exact C4Inv_pop_EffOK heff hinv
    · exact C4Inv_EffOK heff hinv
  rcases hW with heff | hr
  · split_ifs with hsucc
    · exact C4Inv_pop_EffOK heff hinv
    · exact C4Inv_EffOK heff hinv
  obtain ⟨hres, hseen, hcnt, hpco, hpcD, hguard, hstk2⟩ := hr
  obtain ⟨hA, hB, hC⟩ := hinv
  rw [if_pos hres]
  have hpcs0 : printCount s D = 0 := by
    rcases hgf with hg | hf
    · by_contra hne
      exact (hguard hg).1 (hB D hg (Nat.one_le_iff_ne_zero.mpr hne))
    · have h1 := hC D hf
      rw [hstack] at h1
      simp only [List.count_cons, beq_self_eq_true, if_true] at h1
      omega
  refine ⟨?_, ?_, ?_⟩
  · intro d
    rw [printCount_pop]
    by_cases hdD : d = D
    · subst hdD
      rw [hpcD, hpcs0]
    · rw [hpco d hdD]
      exact hA d
  · intro d hg h1
    rw [printCount_pop] at h1
    show ((stepDecl env s D).2.seenTypes d).1 = .Defined
    by_cases hdD : d = D
    · subst hdD
      exact (hguard hg).2
    · rw [hpco d hdD] at h1
      exact seenLE_defined hseen d (hB d hg h1)
  · intro d hdf
    rw [printCount_pop]
    by_cases hdD : d = D
    · subst hdD
      have hrest : rest.count d = 0 := by
        have h1 := hC d hdf
        rw [hstack] at h1
        simp only [List.count_cons, beq_self_eq_true, if_true] at h1
        omega
      rcases hstk2 hdf with he | he
      · have htail : (stepDecl env s d).2.declsToWrite.tail = rest := by
          rw [he, hstack]
          rfl
        rw [declsToWrite_pop, htail, hpcD, hpcs0, hrest]
      · have htail : (stepDecl env s d).2.declsToWrite.tail =
            collectNestedTypes env (env.members d) ++ rest := by
          rw [he, hstack]
          rfl
        have hnD : (collectNestedTypes env (env.members d)).count d = 0 := by
          rw [List.count_eq_zero]
          intro hmem
          have hty := collectNestedTypes_kinds env _ d hmem
          rcases hdf with h | h <;> rw [h] at hty <;> simp [isTypeDeclKind] at hty
        rw [declsToWrite_pop, htail, List.count_append, hpcD, hpcs0, hrest, hnD]
    · rw [hpco d hdD, declsToWrite_pop]
      have h2 := count_tail_le (stepDecl env s D).2.declsToWrite d
      rw [hcnt d hdf] at h2
      have h3 := hC d hdf
      omega

theorem writeLoop_zero (env : Env) (s : MWState) :
    writeLoop env 0 s = if s.declsToWrite.isEmpty then some s else none := rfl

theorem writeLoop_succ_nil (env : Env) (fuel : Nat) (s : MWState)
    (h : s.declsToWrite = []) : writeLoop env (fuel + 1) s = some s := by
  rw [writeLoop]
  split
  · rfl
  · rename_i D rest heq
    rw [h] at heq
    cases heq

theorem writeLoop_succ_cons (env : Env) (fuel : Nat) (s : MWState) (D : Nat)
    (rest : List Nat) (h : s.declsToWrite = D :: rest) :
    writeLoop env (fuel + 1) s =
      if (stepDecl env s D).1 then
        writeLoop env fuel { emitEvent (stepDecl env s D).2 .newline with
          declsToWrite := (stepDecl env s D).2.declsToWrite.tail }
      else writeLoop env fuel (stepDecl env s D).2 := by
  rw [writeLoop]
  split
  · rename_i heq
    rw [h] at heq
    cases heq
  · rename_i D' rest' heq
    rw [h] at heq
    cases heq
    rfl

theorem writeLoop_inv (env : Env)
    (hmode : env.outputLangMode = .ObjC)
    (hsup : ∀ d c, env.superclass d = some c → env.kind c = .classKind)
    (hlocal : ∀ d p, p ∈ env.localProtocols d → env.kind p = .protocolKind)
    (hinh : ∀ d p, p ∈ env.inheritedProtocols d → env.kind p = .protocolKind)
    (hself : ∀ d c, env.selfClassDecl d = some c → env.kind c = .classKind) :
    ∀ (fuel : Nat) (s sf : MWState),
    C4Inv env s → writeLoop env fuel s = some sf → C4Inv env sf := by
  intro fuel
  induction fuel with
  | zero =>
    intro s sf hinv hw
    rw [writeLoop_zero] at hw
    split_ifs at hw
    · cases hw
      exact hinv
  | succ n ih =>
    intro s sf hinv hw
    cases hs : s.declsToWrite with
    | nil =>
      rw [writeLoop_succ_nil env n s hs] at hw
      cases hw
      exact hinv
    | cons D rest =>
      rw [writeLoop_succ_cons env n s D rest hs] at hw
      have hnext := C4Inv_step env s D rest hmode hsup hlocal hinh hself hs hinv
      split_ifs at hw hnext with hsucc
      · exact ih _ sf hnext hw
      · exact ih _ sf hnext hw

theorem initialWriteState_out (env : Env) (tds : List Nat) :
    (initialWriteState env tds).out = [] := by
  simp only [initialWriteState]
  split_ifs <;> rfl

theorem initialWriteState_decls (env : Env) (tds : List Nat) :
    (initialWriteState env tds).declsToWrite = (sortedTopLevel env tds).reverse := by
  simp only [initialWriteState]
  split_ifs <;> rfl

theorem C4Inv_initial (env : Env) (tds : List Nat) (hnodup : tds.Nodup) :
    C4Inv env (initialWriteState env tds) := by
  have hpc : ∀ d, printCount (initialWriteState env tds) d = 0 := by
    intro d
    simp [printCount, initialWriteState_out]
  have hsorted : ((sortedTopLevel env tds).reverse).Nodup := by
    rw [List.nodup_reverse]
    unfold sortedTopLevel
    exact ((insertionSortLE_perm _ _).nodup_iff).mpr (hnodup.filter _)
  refine ⟨?_, ?_, ?_⟩
  · intro d
    rw [hpc d]
    omega
  · intro d _ h1
    rw [hpc d] at h1
    omega
  · intro d _
    rw [hpc d, initialWriteState_decls]
    simpa using (List.nodup_iff_count_le_one.mp hsorted) d

theorem printCount_adHocFold (env : Env) (s2 : MWState) (d : Nat) :
    printCount ((groupRuns env s2.delayedMembers).foldl
      (fun st g => emitEvent st (.adHocCategory g)) s2) d = printCount s2 d := by
  generalize groupRuns env s2.delayedMembers = gs
  induction gs generalizing s2 with
  | nil => rfl
  | cons g rest ih =>
    rw [List.foldl_cons, ih]
    apply printCount_emitEvent
    simp

theorem write_printCount_le_one (env : Env) (tds : List Nat) (fuel : Nat) (sf : MWState)
    (hmode : env.outputLangMode = .ObjC)
    (hnodup : tds.Nodup)
    (hsup : ∀ d c, env.superclass d = some c → env.kind c = .classKind)
    (hlocal : ∀ d p, p ∈ env.localProtocols d → env.kind p = .protocolKind)
    (hinh : ∀ d p, p ∈ env.inheritedProtocols d → env.kind p = .protocolKind)
    (hself : ∀ d c, env.selfClassDecl d = some c → env.kind c = .classKind)
    (hw : write env tds fuel = some sf) :
    ∀ d, printCount sf d ≤ 1 := by
  unfold write at hw
  split at hw
  · cases hw
  · rename_i s2 hwl
    have hinv2 := writeLoop_inv env hmode hsup hlocal hinh hself fuel _ s2
      (C4Inv_initial env tds hnodup) hwl
    split_ifs at hw
    · cases hw
      exact hinv2.1
    · cases hw
      intro d
      rw [printCount_adHocFold]
      exact hinv2.1 d

theorem stepDecl_seenLE (env : Env) (s : MWState) (D : Nat)
    (hmode : env.outputLangMode = .ObjC)
    (hsup : ∀ d c, env.superclass d = some c → env.kind c = .classKind)
    (hlocal : ∀ d p, p ∈ env.localProtocols d → env.kind p = .protocolKind)
    (hinh : ∀ d p, p ∈ env.inheritedProtocols d → env.kind p = .protocolKind)
    (hself : ∀ d c, env.selfClassDecl d = some c → env.kind c = .classKind) :
    seenLE s (stepDecl env s D).2 := by
  obtain ⟨hW, -⟩ := stepDecl_effects env s D hmode hsup hlocal hinh hself
  rcases hW with heff | hr
  · exact heff.1
  · exact hr.2.1



/-- C4 (corrected): under ObjC output mode, with duplicate-free top-level
input and kind-consistent collaborator queries, a completed emission pass
prints every declaration at most once (not exactly once: a kept empty
extension is printed zero times, see the counterexample), and every
scheduler step moves every declaration's emission state monotonically
along NotYetDefined → DefinitionRequested → Defined: the state's rank
never decreases and Defined is absorbing, so a declaration reaches
Defined at most once. -/
theorem C4_no_duplicate_emission (env : Env) (tds : List Nat) (fuel : Nat)
    (sf : MWState)
    (hmode : env.outputLangMode = .ObjC)
    (hnodup : tds.Nodup)
    (hsup : ∀ d c, env.superclass d = some c → env.kind c = .classKind)
    (hlocal : ∀ d p, p ∈ env.localProtocols d → env.kind p = .protocolKind)
    (hinh : ∀ d p, p ∈ env.inheritedProtocols d → env.kind p = .protocolKind)
    (hself : ∀ d c, env.selfClassDecl d = some c → env.kind c = .classKind)
    (hw : write env tds fuel = some sf) :
    (∀ d, printCount sf d ≤ 1) ∧
    (∀ (s : MWState) (D d : Nat),
      esRank (s.seenTypes d).1 ≤ esRank ((stepDecl env s D).2.seenTypes d).1) ∧
    (∀ (s : MWState) (D d : Nat), (s.seenTypes d).1 = .Defined →
      ((stepDecl env s D).2.seenTypes d).1 = .Defined) :=
  ⟨write_printCount_le_one env tds fuel sf hmode hnodup hsup hlocal hinh hself hw,
   fun s D d => stepDecl_seenLE env s D hmode hsup hlocal hinh hself d,
   fun s D d hd =>
     seenLE_defined (stepDecl_seenLE env s D hmode hsup hlocal hinh hself) d hd⟩

/-- C4 counterexample: the empty extension `6` survives the top-level
filter, yet the completed pass prints it zero times, refuting "every
filtered top-level declaration is emitted exactly once". -/
theorem C4_counterexample :
    keepTopLevel C4env 6 = true ∧
    (write C4env [6] 2).map (fun sf => printCount sf 6) = some 0 := ⟨rfl, rfl⟩

/-- Witness instantiating `C4_no_duplicate_emission` on the concrete
single-extension environment. -/
theorem C4_witness :
    C4env.outputLangMode = .ObjC ∧ [6].Nodup ∧
    write C4env [6] 2 = some C4wsf ∧ (∀ d, printCount C4wsf d ≤ 1) :=
  ⟨rfl, by decide, rfl,
   (C4_no_duplicate_emission C4env [6] 2 C4wsf rfl (by decide)
     (fun d c h => by cases h)
     (fun d p h => by cases h)
     (fun d p h => by cases h)
     (fun d c h => by
       simp only [C4env, baseEnv] at h ⊢
       split_ifs at h with h6 <;> cases h <;> rfl)
     rfl).1⟩

theorem C7_require_eq (s : MWState) (E : Nat) (hE : (s.seenTypes E).1 ≠ .Defined) :
    require C7env s E =
      (false, { setSeen s E (.DefinitionRequested, (s.seenTypes E).2) with
          declsToWrite :=
            E :: (setSeen s E (.DefinitionRequested, (s.seenTypes E).2)).declsToWrite }) := by
  have haddi : addImport C7env s E = (false, s) := addImport_local _ _ _ rfl
  simp only [require, haddi]
  cases hseen : (s.seenTypes E).1 with
  | Defined => exact absurd hseen hE
  | NotYetDefined => rfl
  | DefinitionRequested => rfl

theorem C7_writeClass_eq (s : MWState) (D E : Nat)
    (hsup : C7env.superclass D = some E)
    (hD : (s.seenTypes D).1 ≠ .Defined)
    (hE : (s.seenTypes E).1 ≠ .Defined) :
    writeClass C7env s D = (false, (require C7env s E).2) := by
  have haddi : addImport C7env s D = (false, s) := addImport_local _ _ _ rfl
  have hrq : classRequirements C7env s D = (false, (require C7env s E).2) := by
    simp only [classRequirements, hsup]
    rw [C7_require_eq s E hE]
    rfl
  simp only [writeClass, haddi]
  rw [if_neg hD, hrq]
  simp

theorem C7_stepDecl_eq (s : MWState) (D : Nat) :
    stepDecl C7env s D = writeClass C7env s D := by
  simp only [stepDecl]
  rfl

theorem C7_loop_none : ∀ (fuel : Nat) (s : MWState), C7Bad s →
    writeLoop C7env fuel s = none := by
  intro fuel
  induction fuel with
  | zero =>
    intro s hbad
    rw [writeLoop_zero, if_neg]
    simp only [List.isEmpty_iff]
    exact hbad.1
  | succ n ih =>
    intro s hbad
    obtain ⟨hne, hmem, h1, h2⟩ := hbad
    cases hs : s.declsToWrite with
    | nil => exact absurd hs hne
    | cons D rest =>
      rw [writeLoop_succ_cons C7env n s D rest hs]
      have hD : D = 1 ∨ D = 2 := hmem D (by rw [hs]; exact List.mem_cons_self D rest)
      have hE : ∃ E, C7env.superclass D = some E ∧ (E = 1 ∨ E = 2) ∧
          (s.seenTypes D).1 ≠ .Defined ∧ (s.seenTypes E).1 ≠ .Defined := by
        rcases hD with h | h <;> subst h
        · exact ⟨2, rfl, Or.inr rfl, h1, h2⟩
        · exact ⟨1, rfl, Or.inl rfl, h2, h1⟩
      obtain ⟨E, hsup, hE12, hDnd, hEnd⟩ := hE
      have hstep : stepDecl C7env s D = (false, (require C7env s E).2) := by
        rw [C7_stepDecl_eq]
        exact C7_writeClass_eq s D E hsup hDnd hEnd
      rw [hstep]
      simp only [Bool.false_eq_true, if_false]
      apply ih
      rw [C7_require_eq s E hEnd]
      refine ⟨by simp, ?_, ?_, ?_⟩
      · intro d hd
        simp only [setSeen] at hd
        rcases List.mem_cons.mp hd with h | h
        · rw [h]; exact hE12
        · exact hmem d h
      · simp only [setSeen]
        split
        · simp
        · exact h1
      · simp only [setSeen]
        split
        · simp
        · exact h2

theorem initialWriteState_seen (env : Env) (tds : List Nat) :
    (initialWriteState env tds).seenTypes = initialMWState.seenTypes := by
  simp only [initialWriteState]
  split_ifs <;> rfl

/-- C7 counterexample: with the cyclic superclass chain `1 <- 2 <- 1`,
the emission pass never terminates: the drain loop exhausts any amount of
fuel (each attempt at one class re-pushes the other), so `write` returns
`none` for every fuel. -/
theorem C7_counterexample : divergesOn C7env [1] := by
  intro fuel
  have hbad : C7Bad (initialWriteState C7env [1]) := by
    refine ⟨?_, ?_, ?_, ?_⟩
    · rw [initialWriteState_decls]
      simp [sortedTopLevel, insertionSortLE, orderedInsertLE, keepTopLevel, C7env,
        baseEnv, isValueDeclKind]
    · intro d hd
      rw [initialWriteState_decls] at hd
      simp [sortedTopLevel, insertionSortLE, orderedInsertLE, keepTopLevel, C7env,
        baseEnv, isValueDeclKind] at hd
      exact Or.inl hd
    · rw [initialWriteState_seen]
      simp [initialMWState]
    · rw [initialWriteState_seen]
      simp [initialMWState]
  have hnone := C7_loop_none fuel _ hbad
  unfold write
  rw [hnone]

theorem addImport_fst_state (env : Env) (s t : MWState) (e : Nat) :
    (addImport env s e).1 = (addImport env t e).1 := by
  simp only [addImport]
  repeat' split
  all_goals rfl

theorem addImport_false_local (env : Env) (s : MWState) (e : Nat)
    (h : (addImport env s e).1 = false) :
    env.moduleOf e = env.currentModule := by
  simp only [addImport] at h
  split_ifs at h with h1
  · exact h1
  all_goals revert h
  all_goals split
  all_goals simp

theorem require_fst_iff (env : Env) (s : MWState) (E : Nat) :
    (require env s E).1 = true ↔ reqCond env s E := by
  simp only [require, reqCond]
  split_ifs with h1
  · simp [h1]
  · rw [addImport_seenTypes]
    cases hseen : (s.seenTypes E).1
    · simp_all
    · simp_all
    · simp [hseen]

theorem require_seenTypes_other (env : Env) (s : MWState) (E e : Nat) (he : e ≠ E) :
    (require env s E).2.seenTypes e = s.seenTypes e := by
  simp only [require]
  split_ifs with h1
  · simp [setSeen, addImport_seenTypes, he]
  · rw [addImport_seenTypes]
    cases hseen : (s.seenTypes E).1
    · simp [setSeen, addImport_seenTypes, he]
    · simp [setSeen, addImport_seenTypes, he]
    · simp [addImport_seenTypes]

theorem require_seenLE (env : Env) (s : MWState) (E : Nat) :
    seenLE s (require env s E).2 := by
  intro d
  by_cases he : d = E
  · subst he
    simp only [require]
    split_ifs with h1
    · simp only [setSeen, addImport_seenTypes, if_pos rfl]
      exact le_trans (esRank_le_two _) (by simp [esRank])
    · rw [addImport_seenTypes]
      cases hseen : (s.seenTypes d).1
      · simp [setSeen, addImport_seenTypes, hseen, esRank]
      · simp [setSeen, addImport_seenTypes, hseen, esRank]
      · simp [addImport_seenTypes, hseen]
  · rw [require_seenTypes_other env s E d he]

theorem require_fail_char (env : Env) (s : MWState) (E : Nat)
    (h : (require env s E).1 = false) :
    (require env s E).2.declsToWrite = E :: s.declsToWrite ∧
    env.moduleOf E = env.currentModule ∧
    ((require env s E).2.seenTypes E).1 = .DefinitionRequested := by
  have hai : (addImport env s E).1 = false := by
    by_contra hcontra
    have := (require_fst_iff env s E).mpr (Or.inl (by revert hcontra; cases (addImport env s E).1 <;> simp))
    rw [this] at h
    cases h
  have hloc := addImport_false_local env s E hai
  have haddi : addImport env s E = (false, s) := addImport_local env s E hloc
  simp only [require, haddi] at h ⊢
  cases hseen : (s.seenTypes E).1
  · simp [setSeen, hseen, hloc]
  · simp [setSeen, hseen, hloc]
  · simp [hseen] at h

theorem require_nondef_stable (env : Env) (s : MWState) (E e : Nat)
    (hloc : env.moduleOf e = env.currentModule)
    (h : (s.seenTypes e).1 ≠ .Defined) :
    ((require env s E).2.seenTypes e).1 ≠ .Defined := by
  by_cases he : e = E
  · subst he
    have haddi : addImport env s e = (false, s) := addImport_local env s e hloc
    simp only [require, haddi]
    cases hseen : (s.seenTypes e).1
    · simp [setSeen]
    · simp [setSeen]
    · exact absurd hseen h
  · rw [require_seenTypes_other env s E e he]
    exact h

theorem requireList_seenLE_aux (env : Env) :
    ∀ (l : List Nat) (acc : Bool × MWState),
    seenLE acc.2 (l.foldl (fun (acc : Bool × MWState) p =>
      (acc.1 && (require env acc.2 p).1, (require env acc.2 p).2)) acc).2 := by
  intro l
  induction l with
  | nil => intro acc; exact seenLE_refl _
  | cons p rest ih =>
    intro acc
    rw [List.foldl_cons]
    exact seenLE_trans (require_seenLE env acc.2 p)
      (ih (acc.1 && (require env acc.2 p).1, (require env acc.2 p).2))

theorem requireList_nondef_stable_aux (env : Env) (e : Nat)
    (hloc : env.moduleOf e = env.currentModule) :
    ∀ (l : List Nat) (acc : Bool × MWState),
    (acc.2.seenTypes e).1 ≠ .Defined →
    ((l.foldl (fun (acc : Bool × MWState) p =>
      (acc.1 && (require env acc.2 p).1, (require env acc.2 p).2)) acc).2.seenTypes e).1 ≠
      .Defined := by
  intro l
  induction l with
  | nil => intro acc h; exact h
  | cons p rest ih =>
    intro acc h
    rw [List.foldl_cons]
    exact ih _ (require_nondef_stable env acc.2 p e hloc h)

theorem requireList_char_aux (env : Env) :
    ∀ (l : List Nat) (acc : Bool × MWState),
    ∃ L : List Nat,
      (l.foldl (fun (acc : Bool × MWState) p =>
        (acc.1 && (require env acc.2 p).1, (require env acc.2 p).2)) acc).2.declsToWrite =
        L ++ acc.2.declsToWrite ∧
      (∀ e ∈ L, e ∈ l ∧ env.moduleOf e = env.currentModule ∧
        ((l.foldl (fun (acc : Bool × MWState) p =>
          (acc.1 && (require env acc.2 p).1, (require env acc.2 p).2)) acc).2.seenTypes e).1 ≠
          .Defined) ∧
      ((l.foldl (fun (acc : Bool × MWState) p =>
        (acc.1 && (require env acc.2 p).1, (require env acc.2 p).2)) acc).1 = false →
        acc.1 = false ∨ L ≠ []) := by
  intro l
  induction l with
  | nil =>
    intro acc
    exact ⟨[], rfl, by simp, fun h => Or.inl h⟩
  | cons p rest ih =>
    intro acc
    by_cases hr : (require env acc.2 p).1 = true
    · obtain ⟨L, hstk, hprops, hbool⟩ :=
        ih (acc.1 && (require env acc.2 p).1, (require env acc.2 p).2)
      refine ⟨L, ?_, ?_, ?_⟩
      · rw [List.foldl_cons, hstk]
        rw [require_true_declsToWrite env acc.2 p hr]
      · intro e he
        obtain ⟨h1, h2, h3⟩ := hprops e he
        exact ⟨List.mem_cons_of_mem _ h1, h2, by rw [List.foldl_cons]; exact h3⟩
      · intro h
        rw [List.foldl_cons] at h
        rcases hbool h with h' | h'
        · left
          rw [hr] at h'
          simpa using h'
        · exact Or.inr h'
    · have hr' : (require env acc.2 p).1 = false := by
        revert hr
        cases (require env acc.2 p).1 <;> simp
      obtain ⟨hstk1, hloc1, hdr⟩ := require_fail_char env acc.2 p hr'
      obtain ⟨L, hstk, hprops, hbool⟩ :=
        ih (acc.1 && (require env acc.2 p).1, (require env acc.2 p).2)
      refine ⟨L ++ [p], ?_, ?_, fun _ => Or.inr (by simp)⟩
      · rw [List.foldl_cons, hstk]
        simp only [hstk1]
        simp
      · intro e he
        rcases List.mem_append.mp he with h | h
        · obtain ⟨h1, h2, h3⟩ := hprops e h
          exact ⟨List.mem_cons_of_mem _ h1, h2, by rw [List.foldl_cons]; exact h3⟩
        · have hep : e = p := by simpa using h
          subst hep
          refine ⟨List.mem_cons_self _ _, hloc1, ?_⟩
          rw [List.foldl_cons]
          refine requireList_nondef_stable_aux env e hloc1 rest _ ?_
          rw [hdr]
          simp

theorem requireList_char (env : Env) (s : MWState) (l : List Nat) :
    ∃ L : List Nat,
      (requireList env s l).2.declsToWrite = L ++ s.declsToWrite ∧
      (∀ e ∈ L, e ∈ l ∧ env.moduleOf e = env.currentModule ∧
        ((requireList env s l).2.seenTypes e).1 ≠ .Defined) ∧
      ((requireList env s l).1 = false → L ≠ []) := by
  obtain ⟨L, hstk, hprops, hbool⟩ := requireList_char_aux env l (true, s)
  refine ⟨L, hstk, hprops, ?_⟩
  intro h
  rcases hbool h with h' | h'
  · cases h'
  · exact h'

theorem requireList_seenLE (env : Env) (s : MWState) (l : List Nat) :
    seenLE s (requireList env s l).2 :=
  requireList_seenLE_aux env l (true, s)

theorem requireList_nondef_stable (env : Env) (s : MWState) (l : List Nat) (e : Nat)
    (hloc : env.moduleOf e = env.currentModule)
    (h : (s.seenTypes e).1 ≠ .Defined) :
    ((requireList env s l).2.seenTypes e).1 ≠ .Defined :=
  requireList_nondef_stable_aux env e hloc l (true, s) h

theorem classRequirements_char (env : Env) (s : MWState) (CD : Nat)
    (hmode : env.outputLangMode = .ObjC)
    (hk : env.kind CD = .classKind) :
    ∃ L : List Nat,
      (classRequirements env s CD).2.declsToWrite = L ++ s.declsToWrite ∧
      (∀ e ∈ L, e ∈ reqList env CD ∧ env.moduleOf e = env.currentModule ∧
        ((classRequirements env s CD).2.seenTypes e).1 ≠ .Defined) ∧
      ((classRequirements env s CD).1 = false → L ≠ []) ∧
      seenLE s (classRequirements env s CD).2 := by
  have hmo : env.outputLangMode ≠ OutputLanguageMode.Cxx := by rw [hmode]; simp
  have hrl : reqList env CD =
      (match env.superclass CD with | some e => [e] | none => []) ++
        (env.localProtocols CD).filter env.shouldInclude := by
    simp only [reqList, hk]
  simp only [classRequirements, if_pos hmo]
  cases hsc : env.superclass CD with
  | none =>
    simp only [hsc]
    obtain ⟨L, hstk, hprops, hbool⟩ :=
      requireList_char env s ((env.localProtocols CD).filter env.shouldInclude)
    refine ⟨L, hstk, ?_, ?_, requireList_seenLE env s _⟩
    · intro e he
      obtain ⟨h1, h2, h3⟩ := hprops e he
      exact ⟨by rw [hrl, hsc]; simpa using h1, h2, h3⟩
    · intro h
      simp only [Bool.true_and] at h
      exact hbool h
  | some sc =>
    simp only [hsc]
    by_cases hr : (require env s sc).1 = true
    · obtain ⟨L, hstk, hprops, hbool⟩ :=
        requireList_char env (require env s sc).2
          ((env.localProtocols CD).filter env.shouldInclude)
      refine ⟨L, ?_, ?_, ?_, seenLE_trans (require_seenLE env s sc) (requireList_seenLE env _ _)⟩
      · rw [hstk, require_true_declsToWrite env s sc hr]
      · intro e he
        obtain ⟨h1, h2, h3⟩ := hprops e he
        exact ⟨by rw [hrl, hsc]; simp; right; simpa using h1, h2, h3⟩
      · intro h
        rw [hr] at h
        simp only [Bool.true_and] at h
        exact hbool h
    · have hr' : (require env s sc).1 = false := by
        revert hr
        cases (require env s sc).1 <;> simp
      obtain ⟨hstk1, hloc1, hdr⟩ := require_fail_char env s sc hr'
      obtain ⟨L, hstk, hprops, hbool⟩ :=
        requireList_char env (require env s sc).2
          ((env.localProtocols CD).filter env.shouldInclude)
      refine ⟨L ++ [sc], ?_, ?_, fun _ => by simp,
        seenLE_trans (require_seenLE env s sc) (requireList_seenLE env _ _)⟩
      · rw [hstk, hstk1]
        simp
      · intro e he
        rcases List.mem_append.mp he with h | h
        · obtain ⟨h1, h2, h3⟩ := hprops e h
          exact ⟨by rw [hrl, hsc]; simp; right; simpa using h1, h2, h3⟩
        · have hesc : e = sc := by simpa using h
          subst hesc
          refine ⟨by rw [hrl, hsc]; simp, hloc1, ?_⟩
          refine requireList_nondef_stable env _ _ e hloc1 ?_
          rw [hdr]
          simp

theorem extensionRequirements_char (env : Env) (s : MWState) (ED : Nat)
    (hk : env.kind ED = .extensionKind) :
    ∃ L : List Nat,
      (extensionRequirements env s ED).2.declsToWrite = L ++ s.declsToWrite ∧
      (∀ e ∈ L, e ∈ reqList env ED ∧ env.moduleOf e = env.currentModule ∧
        ((extensionRequirements env s ED).2.seenTypes e).1 ≠ .Defined) ∧
      ((extensionRequirements env s ED).1 = false → L ≠ []) ∧
      seenLE s (extensionRequirements env s ED).2 := by
  have hrl : reqList env ED =
      (match env.selfClassDecl ED with | some e => [e] | none => []) ++
        (env.localProtocols ED).filter env.shouldInclude := by
    simp only [reqList, hk]
  simp only [extensionRequirements]
  cases hsc : env.selfClassDecl ED with
  | none =>
    simp only [hsc]
    obtain ⟨L, hstk, hprops, hbool⟩ :=
      requireList_char env s ((env.localProtocols ED).filter env.shouldInclude)
    refine ⟨L, hstk, ?_, ?_, requireList_seenLE env s _⟩
    · intro e he
      obtain ⟨h1, h2, h3⟩ := hprops e he
      exact ⟨by rw [hrl, hsc]; simpa using h1, h2, h3⟩
    · intro h
      simp only [Bool.true_and] at h
      exact hbool h
  | some sc =>
    simp only [hsc]
    by_cases hr : (require env s sc).1 = true
    · obtain ⟨L, hstk, hprops, hbool⟩ :=
        requireList_char env (require env s sc).2
          ((env.localProtocols ED).filter env.shouldInclude)
      refine ⟨L, ?_, ?_, ?_, seenLE_trans (require_seenLE env s sc) (requireList_seenLE env _ _)⟩
      · rw [hstk, require_true_declsToWrite env s sc hr]
      · intro e he
        obtain ⟨h1, h2, h3⟩ := hprops e he
        exact ⟨by rw [hrl, hsc]; simp; right; simpa using h1, h2, h3⟩
      · intro h
        rw [hr] at h
        simp only [Bool.true_and] at h
        exact hbool h
    · have hr' : (require env s sc).1 = false := by
        revert hr
        cases (require env s sc).1 <;> simp
      obtain ⟨hstk1, hloc1, hdr⟩ := require_fail_char env s sc hr'
      obtain ⟨L, hstk, hprops, hbool⟩ :=
        requireList_char env (require env s sc).2
          ((env.localProtocols ED).filter env.shouldInclude)
      refine ⟨L ++ [sc], ?_, ?_, fun _ => by simp,
        seenLE_trans (require_seenLE env s sc) (requireList_seenLE env _ _)⟩
      · rw [hstk, hstk1]
        simp
      · intro e he
        rcases List.mem_append.mp he with h | h
        · obtain ⟨h1, h2, h3⟩ := hprops e h
          exact ⟨by rw [hrl, hsc]; simp; right; simpa using h1, h2, h3⟩
        · have hesc : e = sc := by simpa using h
          subst hesc
          refine ⟨by rw [hrl, hsc]; simp, hloc1, ?_⟩
          refine requireList_nondef_stable env _ _ e hloc1 ?_
          rw [hdr]
          simp

theorem insertBelowTop_nil (l : List Nat) : insertBelowTop l [] = l := by
  cases l <;> simp [insertBelowTop]

theorem fdmt_nil (env : Env) (s : MWState) (c : Nat) :
    forwardDeclareMemberTypes env s [] c = (true, s) := by
  simp only [forwardDeclareMemberTypes, List.foldl_nil, insertBelowTop_nil]
  rfl

theorem classRequirements_true_declsToWrite (env : Env) (s : MWState) (CD : Nat)
    (h : (classRequirements env s CD).1 = true) :
    (classRequirements env s CD).2.declsToWrite = s.declsToWrite := by
  simp only [classRequirements] at h ⊢
  simp only [Bool.and_eq_true] at h
  cases hsc : env.superclass CD with
  | none =>
    simp only [hsc] at h ⊢
    split_ifs at h ⊢ with hmo
    · exact requireList_true_stack env s _ h.2
    · rfl
  | some sc =>
    simp only [hsc] at h ⊢
    split_ifs at h ⊢ with hmo
    · rw [requireList_true_stack env _ _ h.2]
      exact require_true_declsToWrite env s sc h.1
    · exact require_true_declsToWrite env s sc h.1

theorem seenLE_of_eq {s t : MWState} (h : t.seenTypes = s.seenTypes) : seenLE s t := by
  intro d
  rw [h]

theorem writeClass_char (env : Env) (s : MWState) (CD : Nat)
    (hmode : env.outputLangMode = .ObjC)
    (hk : env.kind CD = .classKind)
    (hmembers : env.members CD = []) :
    ((writeClass env s CD).1 = true ∧
     (writeClass env s CD).2.declsToWrite = s.declsToWrite ∧
     seenLE s (writeClass env s CD).2 ∧
     (env.moduleOf CD = env.currentModule →
       ((writeClass env s CD).2.seenTypes CD).1 = .Defined)) ∨
    ((writeClass env s CD).1 = false ∧ ∃ L, L ≠ [] ∧
     (writeClass env s CD).2.declsToWrite = L ++ s.declsToWrite ∧
     (∀ e ∈ L, e ∈ reqList env CD ∧ env.moduleOf e = env.currentModule ∧
       ((writeClass env s CD).2.seenTypes e).1 ≠ .Defined) ∧
     seenLE s (writeClass env s CD).2) := by
  obtain ⟨L, hstk, hprops, hbool, hle⟩ :=
    classRequirements_char env (addImport env s CD).2 CD hmode hk
  rw [addImport_declsToWrite] at hstk
  have hle' : seenLE s (classRequirements env (addImport env s CD).2 CD).2 :=
    seenLE_trans (seenLE_of_eq (addImport_seenTypes env s CD)) hle
  simp only [writeClass]
  split_ifs with h1 h2 h3
  · left
    refine ⟨rfl, addImport_declsToWrite env s CD, seenLE_of_eq (addImport_seenTypes env s CD), ?_⟩
    intro hloc
    have := addImport_local env s CD hloc
    rw [this] at h1
    cases h1
  · left
    refine ⟨rfl, addImport_declsToWrite env s CD, seenLE_of_eq (addImport_seenTypes env s CD), ?_⟩
    intro _
    exact h2
  · right
    refine ⟨rfl, L, hbool h3, hstk, ?_, hle'⟩
    intro e he
    exact hprops e he
  · left
    have hrqt : (classRequirements env (addImport env s CD).2 CD).1 = true := by
      revert h3
      cases (classRequirements env (addImport env s CD).2 CD).1 <;> simp
    rw [hmembers, fdmt_nil]
    refine ⟨rfl, ?_, ?_, ?_⟩
    · show (emitEvent (emitEvent (setSeen _ CD _) .newline) (.printDecl CD)).declsToWrite = _
      rw [emitEvent_declsToWrite, emitEvent_declsToWrite, setSeen_declsToWrite,
        classRequirements_true_declsToWrite env _ CD hrqt, addImport_declsToWrite]
    · exact seenLE_trans hle' (seenLE_emit_emit_setSeen_defined _ CD _ _)
    · intro _
      simp [emitEvent, setSeen]

theorem writeProtocol_char (env : Env) (s : MWState) (PD : Nat)
    (hk : env.kind PD = .protocolKind)
    (hmembers : env.members PD = []) :
    ((writeProtocol env s PD).1 = true ∧
     (writeProtocol env s PD).2.declsToWrite = s.declsToWrite ∧
     seenLE s (writeProtocol env s PD).2 ∧
     (env.moduleOf PD = env.currentModule →
       ((writeProtocol env s PD).2.seenTypes PD).1 = .Defined)) ∨
    ((writeProtocol env s PD).1 = false ∧ ∃ L, L ≠ [] ∧
     (writeProtocol env s PD).2.declsToWrite = L ++ s.declsToWrite ∧
     (∀ e ∈ L, e ∈ reqList env PD ∧ env.moduleOf e = env.currentModule ∧
       ((writeProtocol env s PD).2.seenTypes e).1 ≠ .Defined) ∧
     seenLE s (writeProtocol env s PD).2) := by
  obtain ⟨L, hstk, hprops, hbool⟩ :=
    requireList_char env (addImport env s PD).2
      ((env.inheritedProtocols PD).filter env.shouldInclude)
  rw [addImport_declsToWrite] at hstk
  have hle' : seenLE s (requireList env (addImport env s PD).2
      ((env.inheritedProtocols PD).filter env.shouldInclude)).2 :=
    seenLE_trans (seenLE_of_eq (addImport_seenTypes env s PD))
      (requireList_seenLE env _ _)
  have hrl : reqList env PD = (env.inheritedProtocols PD).filter env.shouldInclude := by
    simp only [reqList, hk]
  simp only [writeProtocol, hmembers, fdmt_nil]
  split_ifs with h1 h2 h3 h4
  · left
    refine ⟨rfl, addImport_declsToWrite env s PD,
      seenLE_of_eq (addImport_seenTypes env s PD), ?_⟩
    intro hloc
    have := addImport_local env s PD hloc
    rw [this] at h1
    cases h1
  · left
    exact ⟨rfl, addImport_declsToWrite env s PD,
      seenLE_of_eq (addImport_seenTypes env s PD), fun _ => h2⟩
  · right
    refine ⟨rfl, L, hbool h3, hstk, ?_, hle'⟩
    intro e he
    obtain ⟨p1, p2, p3⟩ := hprops e he
    exact ⟨by rw [hrl]; exact p1, p2, p3⟩
  · cases h4
  · left
    have hrt : (requireList env (addImport env s PD).2
        ((env.inheritedProtocols PD).filter env.shouldInclude)).1 = true := by
      revert h3
      cases (requireList env (addImport env s PD).2
        ((env.inheritedProtocols PD).filter env.shouldInclude)).1 <;> simp
    refine ⟨rfl, ?_, ?_, ?_⟩
    · show (emitEvent (emitEvent (setSeen _ PD _) .newline) (.printDecl PD)).declsToWrite = _
      rw [emitEvent_declsToWrite, emitEvent_declsToWrite, setSeen_declsToWrite,
        requireList_true_stack env _ _ hrt, addImport_declsToWrite]
    · exact seenLE_trans hle' (seenLE_emit_emit_setSeen_defined _ PD _ _)
    · intro _
      simp [emitEvent, setSeen]

theorem writeEnum_char (env : Env) (s : MWState) (ED : Nat)
    (hmode : env.outputLangMode = .ObjC) :
    (writeEnum env s ED).1 = true ∧
    (writeEnum env s ED).2.declsToWrite = s.declsToWrite ∧
    seenLE s (writeEnum env s ED).2 ∧
    (env.moduleOf ED = env.currentModule →
      ((writeEnum env s ED).2.seenTypes ED).1 = .Defined) := by
  have hmo : ¬(env.outputLangMode = OutputLanguageMode.Cxx) := by rw [hmode]; simp
  have hle2 : ∀ ev : OutEvent,
      seenLE s (emitEvent (setSeen (addImport env s ED).2 ED (.Defined, true)) ev) := by
    intro ev
    refine seenLE_trans (seenLE_of_eq (addImport_seenTypes env s ED)) ?_
    intro d
    by_cases hd : d = ED
    · subst hd
      have hdd : ((emitEvent (setSeen (addImport env s d).2 d (.Defined, true))
          ev).seenTypes d).1 = EmissionState.Defined := by
        simp [emitEvent, setSeen]
      rw [hdd]
      exact le_trans (esRank_le_two _) (by simp [esRank])
    · simp [emitEvent, setSeen, hd]
  simp only [writeEnum, if_neg hmo]
  split_ifs with h1 h2 h3
  · refine ⟨rfl, addImport_declsToWrite env s ED,
      seenLE_of_eq (addImport_seenTypes env s ED), ?_⟩
    intro hloc
    have := addImport_local env s ED hloc
    rw [this] at h1
    cases h1
  · exact ⟨rfl, addImport_declsToWrite env s ED,
      seenLE_of_eq (addImport_seenTypes env s ED), fun _ => h2⟩
  · refine ⟨rfl, ?_, ?_, ?_⟩
    · show (emitEvent (emitEvent (setSeen _ ED _) (.printDecl ED)) (.errorDomain ED)).declsToWrite = _
      rw [emitEvent_declsToWrite, emitEvent_declsToWrite, setSeen_declsToWrite,
        addImport_declsToWrite]
    · refine seenLE_trans (hle2 (.printDecl ED)) ?_
      intro d
      simp [emitEvent]
    · intro _
      simp [emitEvent, setSeen]
  · refine ⟨rfl, ?_, ?_, ?_⟩
    · show (emitEvent (setSeen _ ED _) (.printDecl ED)).declsToWrite = _
      rw [emitEvent_declsToWrite, setSeen_declsToWrite, addImport_declsToWrite]
    · exact hle2 (.printDecl ED)
    · intro _
      simp [emitEvent, setSeen]

theorem writeExtension_char (env : Env) (s : MWState) (ED : Nat)
    (hk : env.kind ED = .extensionKind)
    (hmembers : env.members ED = []) :
    ((writeExtension env s ED).1 = true ∧
     (writeExtension env s ED).2.declsToWrite = s.declsToWrite ∧
     seenLE s (writeExtension env s ED).2) ∨
    ((writeExtension env s ED).1 = false ∧ ∃ L, L ≠ [] ∧
     (writeExtension env s ED).2.declsToWrite = L ++ s.declsToWrite ∧
     (∀ e ∈ L, e ∈ reqList env ED ∧ env.moduleOf e = env.currentModule ∧
       ((writeExtension env s ED).2.seenTypes e).1 ≠ .Defined) ∧
     seenLE s (writeExtension env s ED).2) := by
  obtain ⟨L, hstk, hprops, hbool, hle⟩ := extensionRequirements_char env s ED hk
  simp only [writeExtension, hmembers, fdmt_nil]
  split_ifs with h1 h2 h3
  · exact Or.inl ⟨rfl, rfl, seenLE_refl s⟩
  · right
    refine ⟨rfl, L, hbool h2, hstk, ?_, hle⟩
    intro e he
    exact hprops e he
  · cases h3
  · left
    have hrt : (extensionRequirements env s ED).1 = true := by
      revert h2
      cases (extensionRequirements env s ED).1 <;> simp
    refine ⟨rfl, ?_, ?_⟩
    · show (emitEvent (emitEvent _ .newline) (.printDecl ED)).declsToWrite = _
      rw [emitEvent_declsToWrite, emitEvent_declsToWrite,
        extensionRequirements_true_declsToWrite env s ED hrt]
    · refine seenLE_trans hle ?_
      intro d
      simp [emitEvent]

theorem stepDecl_char (env : Env) (s : MWState) (D : Nat)
    (hmode : env.outputLangMode = .ObjC)
    (hmembers : ∀ d, env.members d = []) :
    ((stepDecl env s D).1 = true ∧
     (stepDecl env s D).2.declsToWrite = s.declsToWrite ∧
     seenLE s (stepDecl env s D).2 ∧
     ((env.moduleOf D = env.currentModule ∧ guardedKind env D) →
       ((stepDecl env s D).2.seenTypes D).1 = .Defined)) ∨
    ((stepDecl env s D).1 = false ∧ ∃ L, L ≠ [] ∧
     (stepDecl env s D).2.declsToWrite = L ++ s.declsToWrite ∧
     (∀ e ∈ L, e ∈ reqList env D ∧ env.moduleOf e = env.currentModule ∧
       ((stepDecl env s D).2.seenTypes e).1 ≠ .Defined) ∧
     seenLE s (stepDecl env s D).2) := by
  unfold stepDecl
  rw [hmode]
  simp only [show (OutputLanguageMode.ObjC = OutputLanguageMode.Cxx) ↔ False from by simp,
    if_false]
  split_ifs with h1 h2 h3 h4 h5 h6
  · obtain ⟨c1, c2, c3, c4⟩ := writeEnum_char env s D hmode
    exact Or.inl ⟨c1, c2, c3, fun h => c4 h.1⟩
  · rcases writeClass_char env s D hmode h2 (hmembers D) with ⟨c1, c2, c3, c4⟩ | hfail
    · exact Or.inl ⟨c1, c2, c3, fun h => c4 h.1⟩
    · exact Or.inr hfail
  · rcases writeProtocol_char env s D h4 (hmembers D) with ⟨c1, c2, c3, c4⟩ | hfail
    · exact Or.inl ⟨c1, c2, c3, fun h => c4 h.1⟩
    · exact Or.inr hfail
  · rcases writeFunc_effects env s D h5 with heff | hpr
    · refine Or.inl ⟨?_, ?_, heff.1, ?_⟩
      · -- writeFunc returns true in the EffOK branch too: by cases on its structure
        simp only [writeFunc]
        split_ifs <;> rfl
      · -- the stack-preservation: both writeFunc branches preserve it
        simp only [writeFunc]
        split_ifs with hai
        · rw [addImport_declsToWrite]
        · rw [emitEvent_declsToWrite, emitEvent_declsToWrite, fdtFold_declsToWrite,
            addImport_declsToWrite]
      · intro h
        rcases h.2 with hg | hg | hg <;> rw [h5] at hg <;> cases hg
    · obtain ⟨c1, c2, c3, c4, c5, c6, c7⟩ := hpr
      refine Or.inl ⟨c1, ?_, c2, ?_⟩
      · rcases c7 (Or.inl h5) with he | he
        · exact he
        · rw [he, hmembers]
          show insertBelowTop s.declsToWrite ([].filter _) = _
          simp [insertBelowTop_nil]
      · intro h
        rcases h.2 with hg | hg | hg <;> rw [h5] at hg <;> cases hg
  · refine Or.inl ⟨rfl, rfl, seenLE_refl s, ?_⟩
    intro h
    rcases h.2 with hg | hg | hg
    · rw [hg] at h2; cases h2 rfl
    · rw [hg] at h4; cases h4 rfl
    · rw [hg] at h1; cases h1 rfl
  · rcases writeExtension_char env s D h6 (hmembers D) with ⟨c1, c2, c3⟩ | hfail
    · refine Or.inl ⟨c1, c2, c3, ?_⟩
      intro h
      rcases h.2 with hg | hg | hg <;> rw [h6] at hg <;> cases hg
    · exact Or.inr hfail
  · refine Or.inl ⟨rfl, rfl, seenLE_refl s, ?_⟩
    intro h
    rcases h.2 with hg | hg | hg
    · exact absurd hg h2
    · rw [hg] at h3; exact (h3 (by decide)).elim
    · exact absurd hg h1

theorem length_filter_imp (p q : Nat → Bool) :
    ∀ U : List Nat, (∀ a ∈ U, p a = true → q a = true) →
    (U.filter p).length ≤ (U.filter q).length := by
  intro U
  induction U with
  | nil => intro _; simp
  | cons a U ih =>
    intro h
    simp only [List.filter_cons]
    have hU := ih (fun b hb => h b (List.mem_cons_of_mem a hb))
    by_cases hp : p a = true
    · rw [if_pos hp, if_pos (h a (List.mem_cons_self a U) hp)]
      simpa using hU
    · rw [if_neg hp]
      split
      · simp only [List.length_cons]
        omega
      · exact hU

theorem uCount_mono (U : List Nat) {s t : MWState} (h : seenLE s t) :
    uCount U t ≤ uCount U s := by
  unfold uCount
  apply length_filter_imp
  intro a _ ha
  simp only [decide_eq_true_eq] at ha ⊢
  intro hcon
  exact ha (seenLE_defined h a hcon)

theorem uCount_strict (U : List Nat) {s t : MWState} (h : seenLE s t) (e : Nat)
    (he : e ∈ U) (h1 : (s.seenTypes e).1 ≠ .Defined)
    (h2 : (t.seenTypes e).1 = .Defined) :
    uCount U t < uCount U s := by
  unfold uCount
  induction U with
  | nil => cases he
  | cons a U ih =>
    simp only [List.filter_cons]
    have hm : (U.filter (fun d => decide ((t.seenTypes d).1 ≠ .Defined))).length ≤
        (U.filter (fun d => decide ((s.seenTypes d).1 ≠ .Defined))).length := by
      apply length_filter_imp
      intro b _ hb
      simp only [decide_eq_true_eq] at hb ⊢
      intro hcon
      exact hb (seenLE_defined h b hcon)
    rcases List.mem_cons.mp he with hae | haU
    · subst hae
      rw [if_neg (by simpa using h2), if_pos (by simpa using h1)]
      simp only [List.length_cons]
      omega
    · have hlt := ih haU
      by_cases hp : decide ((t.seenTypes a).1 ≠ .Defined) = true
      · have hq : decide ((s.seenTypes a).1 ≠ .Defined) = true := by
          simp only [decide_eq_true_eq] at hp ⊢
          intro hcon
          exact hp (seenLE_defined h a hcon)
        rw [if_pos hp, if_pos hq]
        simp only [List.length_cons]
        omega
      · rw [if_neg hp]
        split
        · simp only [List.length_cons]
          omega
        · exact hlt

theorem reqList_guarded (env : Env)
    (hsup : ∀ d c, env.superclass d = some c → env.kind c = .classKind)
    (hlocal : ∀ d p, p ∈ env.localProtocols d → env.kind p = .protocolKind)
    (hinh : ∀ d p, p ∈ env.inheritedProtocols d → env.kind p = .protocolKind)
    (hself : ∀ d c, env.selfClassDecl d = some c → env.kind c = .classKind)
    (d e : Nat) (he : e ∈ reqList env d) : guardedKind env e := by
  unfold reqList at he
  split at he
  · rcases List.mem_append.mp he with h | h
    · rcases hsc : env.superclass d with _ | c <;> rw [hsc] at h
      · cases h
      · have : e = c := by simpa using h
        subst this
        exact Or.inl (hsup d e hsc)
    · exact Or.inr (Or.inl (hlocal d e (List.mem_of_mem_filter h)))
  · exact Or.inr (Or.inl (hinh d e (List.mem_of_mem_filter he)))
  · rcases List.mem_append.mp he with h | h
    · rcases hsc : env.selfClassDecl d with _ | c <;> rw [hsc] at h
      · cases h
      · have : e = c := by simpa using h
        subst this
        exact Or.inl (hself d e hsc)
    · exact Or.inr (Or.inl (hlocal d e (List.mem_of_mem_filter h)))
  · cases he

theorem drain (env : Env) (U : List Nat) (ρ : Nat → Nat) (B : Nat)
    (hmode : env.outputLangMode = .ObjC)
    (hmembers : ∀ d, env.members d = [])
    (hsup : ∀ d c, env.superclass d = some c → env.kind c = .classKind)
    (hlocal : ∀ d p, p ∈ env.localProtocols d → env.kind p = .protocolKind)
    (hinh : ∀ d p, p ∈ env.inheritedProtocols d → env.kind p = .protocolKind)
    (hself : ∀ d c, env.selfClassDecl d = some c → env.kind c = .classKind)
    (hrank : ∀ d, ∀ e ∈ reqList env d, ρ e < ρ d)
    (hclos : ∀ d, d ∈ U → ∀ e ∈ reqList env d, e ∈ U)
    (hB : ∀ d ∈ U, ρ d ≤ B) :
    ∀ (μ : Nat) (s : MWState) (D : Nat) (rest : List Nat),
      uCount U s * (B + 1) + ρ D ≤ μ →
      D ∈ U →
      s.declsToWrite = D :: rest →
      ∃ s2 : MWState,
        s2.declsToWrite = rest ∧
        seenLE s s2 ∧
        ((env.moduleOf D = env.currentModule ∧ guardedKind env D) →
          (s2.seenTypes D).1 = .Defined) ∧
        (∀ f sf, writeLoop env f s2 = some sf → ∃ g, writeLoop env g s = some sf) := by
  intro μ
  induction μ using Nat.strong_induction_on with
  | _ μ ih =>
  intro s D rest hμ hDU hstack
  rcases stepDecl_char env s D hmode hmembers with
    ⟨hsucc, hstk, hsLE, hdef⟩ | ⟨hfail, L, hLne, hLstk, hLprops, hsLE⟩
  · refine ⟨{ emitEvent (stepDecl env s D).2 .newline with
        declsToWrite := (stepDecl env s D).2.declsToWrite.tail }, ?_, ?_, ?_, ?_⟩
    · rw [declsToWrite_pop, hstk, hstack]
      rfl
    · exact seenLE_trans hsLE (fun d => le_refl _)
    · intro h
      exact hdef h
    · intro f sf hws
      refine ⟨f + 1, ?_⟩
      rw [writeLoop_succ_cons env f s D rest hstack, if_pos hsucc]
      exact hws
  · have hs1stack : (stepDecl env s D).2.declsToWrite = L ++ (D :: rest) := by
      rw [hLstk, hstack]
    have block : ∀ (Lb : List Nat) (t : MWState),
        t.declsToWrite = Lb ++ (D :: rest) →
        (∀ e ∈ Lb, e ∈ U ∧ env.moduleOf e = env.currentModule ∧ ρ e < ρ D) →
        uCount U t ≤ uCount U s →
        ∃ t2 : MWState,
          t2.declsToWrite = D :: rest ∧
          seenLE t t2 ∧
          (∀ e ∈ Lb, guardedKind env e → (t2.seenTypes e).1 = .Defined) ∧
          (∀ f sf, writeLoop env f t2 = some sf → ∃ g, writeLoop env g t = some sf) := by
      intro Lb
      induction Lb with
      | nil =>
        intro t hts _ _
        exact ⟨t, hts, seenLE_refl t, by simp, fun f sf h => ⟨f, h⟩⟩
      | cons e Lb ihb =>
        intro t hts hprops hu
        obtain ⟨heU, heloc, herk⟩ := hprops e (List.mem_cons_self e Lb)
        have hmul : uCount U t * (B + 1) ≤ uCount U s * (B + 1) :=
          Nat.mul_le_mul_right _ hu
        have hρD : ρ D ≤ B := hB D hDU
        have hmeas : uCount U t * (B + 1) + ρ e < μ := by omega
        obtain ⟨t2, ht2stack, ht2le, ht2def, ht2cont⟩ :=
          ih _ hmeas t e (Lb ++ (D :: rest)) (le_refl _) heU hts
        obtain ⟨t3, ht3stack, ht3le, ht3def, ht3cont⟩ :=
          ihb t2 ht2stack
            (fun e' he' => hprops e' (List.mem_cons_of_mem e he'))
            (le_trans (uCount_mono U ht2le) hu)
        refine ⟨t3, ht3stack, seenLE_trans ht2le ht3le, ?_, ?_⟩
        · intro e' he' hg
          rcases List.mem_cons.mp he' with he'' | he''
          · subst he''
            exact seenLE_defined ht3le e' (ht2def ⟨heloc, hg⟩)
          · exact ht3def e' he'' hg
        · intro f sf hws
          obtain ⟨g1, hg1⟩ := ht3cont f sf hws
          exact ht2cont g1 sf hg1
    have hLprops' : ∀ e ∈ L, e ∈ U ∧ env.moduleOf e = env.currentModule ∧ ρ e < ρ D := by
      intro e he
      obtain ⟨hrl, hloc, _⟩ := hLprops e he
      exact ⟨hclos D hDU e hrl, hloc, hrank D e hrl⟩
    obtain ⟨t2, ht2stack, ht2le, ht2def, ht2cont⟩ :=
      block L (stepDecl env s D).2 hs1stack hLprops' (uCount_mono U hsLE)
    obtain ⟨estar, hestar⟩ := List.exists_mem_of_ne_nil L hLne
    obtain ⟨herl, heloc, hend⟩ := hLprops estar hestar
    have heg : guardedKind env estar :=
      reqList_guarded env hsup hlocal hinh hself D estar herl
    have hedef : (t2.seenTypes estar).1 = .Defined := ht2def estar hestar heg
    have hu2 : uCount U t2 < uCount U s :=
      lt_of_lt_of_le (uCount_strict U ht2le estar (hclos D hDU estar herl) hend hedef)
        (uCount_mono U hsLE)
    have hmul2 : (uCount U t2 + 1) * (B + 1) ≤ uCount U s * (B + 1) :=
      Nat.mul_le_mul_right _ hu2
    have hρD : ρ D ≤ B := hB D hDU
    have hmeas2 : uCount U t2 * (B + 1) + ρ D < μ := by
      have hexp : (uCount U t2 + 1) * (B + 1) = uCount U t2 * (B + 1) + (B + 1) := by ring
      omega
    obtain ⟨s2, hs2stack, hs2le, hs2def, hs2cont⟩ :=
      ih _ hmeas2 t2 D rest (le_refl _) hDU ht2stack
    refine ⟨s2, hs2stack, seenLE_trans hsLE (seenLE_trans ht2le hs2le), hs2def, ?_⟩
    intro f sf hws
    obtain ⟨g1, hg1⟩ := hs2cont f sf hws
    obtain ⟨g2, hg2⟩ := ht2cont g1 sf hg1
    refine ⟨g2 + 1, ?_⟩
    rw [writeLoop_succ_cons env g2 s D rest hstack]
    rw [if_neg (by rw [hfail]; simp)]
    exact hg2

theorem writeLoop_some_empty (env : Env) :
    ∀ (fuel : Nat) (s sf : MWState), writeLoop env fuel s = some sf →
    sf.declsToWrite = [] := by
  intro fuel
  induction fuel with
  | zero =>
    intro s sf hw
    rw [writeLoop_zero] at hw
    split_ifs at hw with hemp
    · cases hw
      exact List.isEmpty_iff.mp hemp
  | succ n ihf =>
    intro s sf hw
    cases hs : s.declsToWrite with
    | nil =>
      rw [writeLoop_succ_nil env n s hs] at hw
      cases hw
      exact hs
    | cons D rest =>
      rw [writeLoop_succ_cons env n s D rest hs] at hw
      split_ifs at hw
      · exact ihf _ _ hw
      · exact ihf _ _ hw

theorem writeLoop_total (env : Env) (U : List Nat) (ρ : Nat → Nat) (B : Nat)
    (hmode : env.outputLangMode = .ObjC)
    (hmembers : ∀ d, env.members d = [])
    (hsup : ∀ d c, env.superclass d = some c → env.kind c = .classKind)
    (hlocal : ∀ d p, p ∈ env.localProtocols d → env.kind p = .protocolKind)
    (hinh : ∀ d p, p ∈ env.inheritedProtocols d → env.kind p = .protocolKind)
    (hself : ∀ d c, env.selfClassDecl d = some c → env.kind c = .classKind)
    (hrank : ∀ d, ∀ e ∈ reqList env d, ρ e < ρ d)
    (hclos : ∀ d, d ∈ U → ∀ e ∈ reqList env d, e ∈ U)
    (hB : ∀ d ∈ U, ρ d ≤ B) :
    ∀ (stack : List Nat) (s : MWState),
      s.declsToWrite = stack → (∀ d ∈ stack, d ∈ U) →
      ∃ fuel sf, writeLoop env fuel s = some sf := by
  intro stack
  induction stack with
  | nil =>
    intro s hs _
    refine ⟨0, s, ?_⟩
    rw [writeLoop_zero, hs]
    rfl
  | cons D rest ihs =>
    intro s hs hU
    obtain ⟨s2, hs2stack, _, _, hcont⟩ :=
      drain env U ρ B hmode hmembers hsup hlocal hinh hself hrank hclos hB
        (uCount U s * (B + 1) + ρ D) s D rest (le_refl _)
        (hU D (List.mem_cons_self D rest)) hs
    obtain ⟨f, sf, hws⟩ := ihs s2 hs2stack (fun d hd => hU d (List.mem_cons_of_mem D hd))
    obtain ⟨g, hg⟩ := hcont f sf hws
    exact ⟨g, sf, hg⟩

/-- C7 (corrected): the drain loop terminates only under an acyclicity
assumption on the requirement graph, which the code never checks: with a
ranking function that strictly decreases along every hard requirement
edge (superclass, included conformances, extended class) inside a closed
finite universe, and in the member-free ObjC fragment with
kind-consistent collaborator queries, the pass reaches the empty stack
with some finite fuel; with a cyclic graph it loops forever (see the
counterexample). -/
theorem C7_termination (env : Env) (U : List Nat) (ρ : Nat → Nat) (B : Nat)
    (tds : List Nat)
    (hmode : env.outputLangMode = .ObjC)
    (hmembers : ∀ d, env.members d = [])
    (hsup : ∀ d c, env.superclass d = some c → env.kind c = .classKind)
    (hlocal : ∀ d p, p ∈ env.localProtocols d → env.kind p = .protocolKind)
    (hinh : ∀ d p, p ∈ env.inheritedProtocols d → env.kind p = .protocolKind)
    (hself : ∀ d c, env.selfClassDecl d = some c → env.kind c = .classKind)
    (hrank : ∀ d, ∀ e ∈ reqList env d, ρ e < ρ d)
    (hclos : ∀ d, d ∈ U → ∀ e ∈ reqList env d, e ∈ U)
    (hB : ∀ d ∈ U, ρ d ≤ B)
    (htds : ∀ d ∈ tds, d ∈ U) :
    ∃ (fuel : Nat) (sf : MWState),
      write env tds fuel = some sf ∧ sf.declsToWrite = [] := by
  have hinit : ∀ d ∈ (initialWriteState env tds).declsToWrite, d ∈ U := by
    intro d hd
    rw [initialWriteState_decls, List.mem_reverse] at hd
    have hperm := insertionSortLE_perm (sortLE env) (tds.filter (keepTopLevel env))
    have hmemf : d ∈ tds.filter (keepTopLevel env) := hperm.mem_iff.mp hd
    exact htds d (List.mem_of_mem_filter hmemf)
  obtain ⟨fuel, s2, hws⟩ :=
    writeLoop_total env U ρ B hmode hmembers hsup hlocal hinh hself hrank hclos hB
      (initialWriteState env tds).declsToWrite (initialWriteState env tds) rfl hinit
  have hempty : s2.declsToWrite = [] := writeLoop_some_empty env fuel _ s2 hws
  have hfold : ∀ (gs : List (List Nat)) (t : MWState),
      (gs.foldl (fun st g => emitEvent st (.adHocCategory g)) t).declsToWrite =
        t.declsToWrite := by
    intro gs
    induction gs with
    | nil => intro t; rfl
    | cons g rest ihg =>
      intro t
      rw [List.foldl_cons, ihg, emitEvent_declsToWrite]
  by_cases hdm : s2.delayedMembers.isEmpty = true
  · refine ⟨fuel, s2, ?_, hempty⟩
    unfold write
    rw [hws]
    dsimp only
    rw [if_pos hdm]
  · refine ⟨fuel, (groupRuns env s2.delayedMembers).foldl
      (fun st g => emitEvent st (.adHocCategory g)) s2, ?_, ?_⟩
    · unfold write
      rw [hws]
      dsimp only
      rw [if_neg hdm]
    · rw [hfold]
      exact hempty

theorem C7wenv_rank : ∀ d, ∀ e ∈ reqList C7wenv d,
    (fun x => if x = 1 then 1 else 0) e < (fun x => if x = 1 then 1 else 0) d := by
  intro d e he
  simp only [reqList, C7wenv, baseEnv] at he
  by_cases hd : d = 1
  · subst hd
    simp at he
    subst he
    simp
  · simp [hd] at he

theorem C7wenv_clos : ∀ d, d ∈ [1, 2] → ∀ e ∈ reqList C7wenv d, e ∈ [1, 2] := by
  intro d hd e he
  simp only [reqList, C7wenv, baseEnv] at he
  by_cases h1 : d = 1
  · subst h1
    simp at he
    subst he
    simp
  · simp [h1] at he

/-- Witness instantiating `C7_termination` on the acyclic two-class
environment. -/
theorem C7_witness :
    ∃ (fuel : Nat) (sf : MWState),
      write C7wenv [1, 2] fuel = some sf ∧ sf.declsToWrite = [] :=
  C7_termination C7wenv [1, 2] (fun x => if x = 1 then 1 else 0) 1 [1, 2]
    rfl
    (fun _ => rfl)
    (fun d c h => by
      simp only [C7wenv, baseEnv] at h
      split_ifs at h <;> cases h <;> rfl)
    (fun d p h => by cases h)
    (fun d p h => by cases h)
    (fun d c h => by cases h)
    C7wenv_rank
    C7wenv_clos
    (by intro d hd; fin_cases hd <;> simp)
    (fun d hd => hd)
